import Mathlib

/-!
Verification development for the embedded scripting-language engine of
pygame_maker (src/pygame_maker/scripts/language_engine.py).

The engine compiles a small C-like language into a postfix token form,
constant-folds it, generates Python code from it and runs that code against
a pair of symbol tables.  This file shallowly embeds the relevant parts:

* `Value` models Python runtime values (int / float / bool).  Python floats
  are modelled as exact rational numbers; every float arithmetic appearing in
  the theorems below stays in the exactly-representable range, and
  `math.pow` with a fractional exponent is outside the modelled fragment.
* `executeOperation`, `foldScan`, `reduceLine` embed `CodeBlock.executeOperation`
  and `CodeBlock.reduceLine` (the constant folder).
* `runTokStep`, `runToksAux`, `runLine` embed the runtime behaviour of the
  Python line produced by `CodeBlock.toPythonLine` (the generated code is a
  straight transcription of the stack walk, so the composite
  generate-then-execute semantics is a single stack evaluation).
* `genTokStep`, `genToks` embed the generation-time operand stack of
  `CodeBlock.toPythonLine` itself: pairs of (type tag, rendered expression).
* `SymbolTable`, `Engine`, `register`, `execute`, `unregister` embed
  `SymbolTable` and `LanguageEngine`.
* `countFunctionArgs` embeds `CodeBlock.countFunctionArgs`.
* a lexer and recursive-descent parser embed the pyparsing grammar `BNF`
  together with the push* parse actions, for the statement forms the claims
  exercise (assignments over the expression grammar, including calls).

The helper modules `run_time_support` (providing `update_symbol` and
`get_symbol`) and `infix_to_postfix` are part of the repository but are not
under src/; the definitions derived from them are marked
"Modelled from the spec".
-/

namespace PygameMaker

/-- Fueled Euclidean algorithm (structural recursion, so that the kernel can
evaluate it; fuel at least b + 1 always suffices). -/
def gcdAux : Nat → Nat → Nat → Nat
  | 0, a, _ => a
  | _ + 1, a, 0 => a
  | fuel + 1, a, b => gcdAux fuel b (a % b)

/-- Greatest common divisor via the fueled Euclidean algorithm. -/
def natGcd (a b : Nat) : Nat := gcdAux (b + 1) a b

/-- Exact rational standing in for a Python float.  Values built through mkF
are canonical (positive denominator, reduced), so structural equality is
value equality on every float the model constructs. -/
structure PyFloat where
  num : ℤ
  den : ℤ
deriving DecidableEq, Repr

/-- Normalizing constructor of PyFloat (d must be nonzero). -/
def mkF (n d : ℤ) : PyFloat :=
  let n2 := if d < 0 then -n else n
  let d2 := if d < 0 then -d else d
  let g : ℤ := (natGcd n2.natAbs d2.natAbs : ℤ)
  if g = 0 then ⟨0, 1⟩ else ⟨Int.tdiv n2 g, Int.tdiv d2 g⟩

/-- Sum of two float values. -/
def fAdd (a b : PyFloat) : PyFloat := mkF (a.num * b.den + b.num * a.den) (a.den * b.den)

/-- Difference of two float values. -/
def fSub (a b : PyFloat) : PyFloat := mkF (a.num * b.den - b.num * a.den) (a.den * b.den)

/-- Product of two float values. -/
def fMul (a b : PyFloat) : PyFloat := mkF (a.num * b.num) (a.den * b.den)

/-- Quotient of two float values (b nonzero). -/
def fDiv (a b : PyFloat) : PyFloat := mkF (a.num * b.den) (a.den * b.num)

/-- Floor of the quotient of two float values, as Python floor division. -/
def fFloorDiv (a b : PyFloat) : ℤ := Int.fdiv (a.num * b.den) (a.den * b.num)

/-- Integer power of a float value (the exponent sign handled as Python
math.pow does for a nonzero base). -/
def fPowZ (a : PyFloat) : ℤ → PyFloat
  | .ofNat n => mkF (a.num ^ n) (a.den ^ n)
  | .negSucc n => mkF (a.den ^ (n + 1)) (a.num ^ (n + 1))

/-- Python runtime value: int, float (modelled as an exact rational) or bool. -/
inductive Value where
  | intV (n : ℤ)
  | floatV (q : PyFloat)
  | boolV (b : Bool)
deriving DecidableEq, Repr

/-- Numeric content of a value as a float; Python treats True/False as 1/0. -/
def Value.toF : Value → PyFloat
  | .intV n => ⟨n, 1⟩
  | .floatV q => q
  | .boolV b => ⟨if b then 1 else 0, 1⟩

/-- Integer content of a value (used only on non-float values). -/
def Value.toZ : Value → ℤ
  | .intV n => n
  | .floatV q => q.num
  | .boolV b => if b then 1 else 0

/-- True exactly for Python floats (isinstance(x, float)). -/
def Value.isFloat : Value → Bool
  | .floatV _ => true
  | _ => false

/-- Numeric equality of two values (cross multiplication; denominators of
model floats are positive). -/
def numEq (a b : Value) : Bool := a.toF.num * b.toF.den == b.toF.num * a.toF.den

/-- Numeric strict order on values. -/
def numLt (a b : Value) : Bool := decide (a.toF.num * b.toF.den < b.toF.num * a.toF.den)

/-- Numeric non-strict order on values. -/
def numLe (a b : Value) : Bool := decide (a.toF.num * b.toF.den ≤ b.toF.num * a.toF.den)

/-- True when the numeric content is zero. -/
def numIsZero (a : Value) : Bool := a.toF.num == 0

/-- Python int(q) truncates toward zero. -/
def ratTrunc (q : PyFloat) : ℤ := Int.tdiv q.num q.den

/-- OPERATOR_FUNCTIONS of CodeBlock: operator name to argument-type list. -/
def OPERATOR_FUNCTIONS : List (String × List String) :=
  [("operator.add", ["number", "number"]),
   ("operator.sub", ["number", "number"]),
   ("operator.mul", ["number", "number"]),
   ("operator.truediv", ["number", "number"]),
   ("operator.mod", ["number", "number"]),
   ("operator.not_", ["bool"]),
   ("operator.lt", ["number", "number"]),
   ("operator.le", ["number", "number"]),
   ("operator.gt", ["number", "number"]),
   ("operator.ge", ["number", "number"]),
   ("operator.eq", ["number", "number"]),
   ("operator.ne", ["number", "number"]),
   ("math.pow", ["number", "number"])]

/-- CONDITIONALS of CodeBlock: the operators whose generated result is bool. -/
def CONDITIONALS : List String :=
  ["operator.lt", "operator.le", "operator.gt", "operator.ge",
   "operator.eq", "operator.ne"]

/-- Association-list lookup (first match), standing in for Python dict access. -/
def alookup {α : Type} (k : String) : List (String × α) → Option α
  | [] => none
  | (k2, v) :: rest => if k = k2 then some v else alookup k rest

/-- Arity of an operator: the length of its OPERATOR_FUNCTIONS entry. -/
def opArity (s : String) : Nat := ((alookup s OPERATOR_FUNCTIONS).getD []).length

/-- Python truthiness of a value (0, 0.0 and False are falsy). -/
def Value.truthy (v : Value) : Bool := !numIsZero v

/-- Result of an arithmetic Python operator: float if either argument is a
float, else int.  Mirrors the runtime behaviour of operator.add and friends. -/
def pyArith (zf : ℤ → ℤ → ℤ) (qf : PyFloat → PyFloat → PyFloat) (a b : Value) : Value :=
  if a.isFloat || b.isFloat then .floatV (qf a.toF b.toF) else .intV (zf a.toZ b.toZ)

/-- Runtime semantics of the Python functions named in OPERATOR_FUNCTIONS,
applied to argument values, exactly as the generated code executes them.
none models a raised runtime exception (ZeroDivisionError / ValueError);
math.pow with a fractional exponent is outside the modelled fragment. -/
def pyApplyOp (op : String) (args : List Value) : Option Value :=
  match op, args with
  | "operator.add", [a, b] => some (pyArith (· + ·) fAdd a b)
  | "operator.sub", [a, b] => some (pyArith (· - ·) fSub a b)
  | "operator.mul", [a, b] => some (pyArith (· * ·) fMul a b)
  | "operator.truediv", [a, b] =>
      if numIsZero b then none else some (.floatV (fDiv a.toF b.toF))
  | "operator.mod", [a, b] =>
      if numIsZero b then none
      else some (if a.isFloat || b.isFloat
        then .floatV (fSub a.toF (fMul b.toF ⟨fFloorDiv a.toF b.toF, 1⟩))
        else .intV (Int.fmod a.toZ b.toZ))
  | "math.pow", [a, b] =>
      if b.toF.den = 1 then
        if numIsZero a && b.toF.num < 0 then none
        else some (.floatV (fPowZ a.toF b.toF.num))
      else none
  | "operator.lt", [a, b] => some (.boolV (numLt a b))
  | "operator.le", [a, b] => some (.boolV (numLe a b))
  | "operator.gt", [a, b] => some (.boolV (numLt b a))
  | "operator.ge", [a, b] => some (.boolV (numLe b a))
  | "operator.eq", [a, b] => some (.boolV (numEq a b))
  | "operator.ne", [a, b] => some (.boolV (!numEq a b))
  | "operator.not_", [a] => some (.boolV (numIsZero a))
  | _, _ => none

/-- CodeBlock.executeOperation: evaluates an operator over literal arguments
during constant folding.  result_type is int unless some argument is a
non-int (i.e. a float); a bool result becomes 1/0; otherwise the raw result
is cast to result_type, so a float result with all-int arguments is
truncated by int(). -/
def executeOperation (op : String) (args : List Value) : Option Value :=
  let resFloat := args.any Value.isFloat
  match pyApplyOp op args with
  | none => none
  | some res =>
    match res with
    | .boolV b => some (.intV (if b then 1 else 0))
    | .intV n => some (if resFloat then .floatV ⟨n, 1⟩ else .intV n)
    | .floatV q => some (if resFloat then .floatV q else .intV (ratTrunc q))

/-- Postfix token: a numeric literal or a string (symbol reference such as
"_x", operator name such as "operator.add", the markers "unary -", "=",
"_return", or "and"/"or").  This mirrors the untyped Python lists built by
the parse actions, which dispatch on string shape. -/
inductive Tok where
  | num (v : Value)
  | s (str : String)
deriving DecidableEq, Repr

/-- True for tokens that pass isinstance(tok, numbers.Number). -/
def Tok.isNum : Tok → Bool
  | .num _ => true
  | .s _ => false

/-- Numeric payload of a literal token (only used under an isNum guard). -/
def Tok.getNum : Tok → Value
  | .num v => v
  | .s _ => .intV 0

/-- Folding of "unary -": the source computes -1 * x on the literal. -/
def negValue : Value → Value
  | .intV n => .intV (-n)
  | .floatV q => .floatV ⟨-q.num, q.den⟩
  | .boolV b => .intV (-(if b then 1 else 0))

/-- Outcome of one left-to-right scan of CodeBlock.reduceLine: either no
foldable spot was found, or the first foldable spot was folded yielding a new
line, or evaluating the fold raised (e.g. division by zero). -/
inductive StepRes where
  | noChange
  | changed (l : List Tok)
  | evalErr
deriving DecidableEq, Repr

/-- Decision of CodeBlock.reduceLine at one scanned token: an operator token
folds when at least arity-many tokens precede it (revPre is the scanned
prefix in reverse) and those tokens are all numeric literals, and "unary -"
folds when directly preceded by a numeric literal; none means the scan moves
on. -/
def foldHere (revPre : List Tok) (str : String) (rest : List Tok) : Option StepRes :=
  if (alookup str OPERATOR_FUNCTIONS).isSome then
    if opArity str ≤ revPre.length && (revPre.take (opArity str)).all Tok.isNum then
      match executeOperation str (((revPre.take (opArity str)).map Tok.getNum).reverse) with
      | some v => some (.changed ((revPre.drop (opArity str)).reverse ++ .num v :: rest))
      | none => some .evalErr
    else none
  else if str = "unary -" then
    match revPre with
    | .num v :: pre2 => some (.changed (pre2.reverse ++ .num (negValue v) :: rest))
    | _ => none
  else none

/-- One scan of the inner while-loop of CodeBlock.reduceLine, folding at the
first spot foldHere accepts. -/
def foldScan : List Tok → List Tok → StepRes
  | _, [] => .noChange
  | revPre, .num v :: rest => foldScan (.num v :: revPre) rest
  | revPre, .s str :: rest =>
    match foldHere revPre str rest with
    | some res => res
    | none => foldScan (.s str :: revPre) rest

/-- One pass of CodeBlock.reduceLine over the whole line. -/
def stepLine (l : List Tok) : StepRes := foldScan [] l

/-- Result of running CodeBlock.reduceLine to completion: the fully folded
line, a raised evaluation error, or exhaustion of the fuel (which the
termination theorem below shows never happens with enough fuel). -/
inductive FoldRes where
  | ok (l : List Tok)
  | evalErr
  | fuelOut
deriving DecidableEq, Repr

/-- Fueled iteration of the outer while-loop of CodeBlock.reduceLine: repeat
single folds until a full scan makes no change. -/
def reduceAux : Nat → List Tok → FoldRes
  | 0, _ => .fuelOut
  | fuel + 1, l =>
    match stepLine l with
    | .noChange => .ok l
    | .changed l2 => reduceAux fuel l2
    | .evalErr => .evalErr

/-- CodeBlock.reduceLine: fold a postfix line until a full pass changes
nothing.  Each fold strictly shortens the line, so length-many iterations
always suffice. -/
def reduceLine (l : List Tok) : FoldRes := reduceAux (l.length + 1) l

/-- SYMBOL_RE of CodeBlock: full match of _[a-zA-Z][a-zA-Z0-9._]* . -/
def symbolMatch (s : String) : Bool :=
  match s.toList with
  | '_' :: c :: rest =>
      c.isAlpha && rest.all (fun ch => ch.isAlpha || ch.isDigit || ch = '.' || ch = '_')
  | _ => false

/-- Strip the leading underscore of a symbol-shaped token, as toPythonLine
does with SYMBOL_RE before dispatching on the name. -/
def stripName (s : String) : String := if symbolMatch s then s.drop 1 else s

/-- Type tag given to a literal token by toPythonLine (isinstance int is
checked before float, and Python bools are ints). -/
def tagOfLit : Value → String
  | .intV _ => "int"
  | .floatV _ => "float"
  | .boolV _ => "int"

/-- Result-type promotion loop of toPythonLine: starts at int, a float
argument promotes to float, a string-tagged argument would force str. -/
def promoTag (tags : List String) : String :=
  tags.foldl (fun acc t => if t = "float" then "float" else if t = "string" then "str" else acc) "int"

/-- SymbolTable of the language engine: a constants store written by the
host and a variables store written by scripts. -/
structure SymbolTable where
  consts : List (String × Value)
  vars : List (String × Value)
deriving DecidableEq, Repr

/-- DEFAULT_UNINITIALIZED_VALUE = -sys.maxint - 1; sys.maxint is 2^63 - 1 on
the 64-bit platforms the engine targets. -/
def sysMaxint : ℤ := 2 ^ 63 - 1

/-- Sentinel returned when reading a name that is set nowhere. -/
def DEFAULT_UNINITIALIZED_VALUE : Value := .intV (-sysMaxint - 1)

/-- Dict write: newest binding first (stands in for Python dict assignment). -/
def dictInsert {α : Type} (k : String) (v : α) (d : List (String × α)) : List (String × α) :=
  (k, v) :: d.filter (fun p => !(p.1 == k))

/-- Python dict.update: insert every pair of upd into base. -/
def dictUpdate {α : Type} (base upd : List (String × α)) : List (String × α) :=
  upd.foldl (fun acc p => dictInsert p.1 p.2 acc) base

/-- SymbolTable.__getitem__: constants shadow variables; a name in neither
store yields the uninitialized sentinel instead of raising. -/
def SymbolTable.getItem (t : SymbolTable) (item : String) : Value :=
  match alookup item t.consts with
  | some c => c
  | none =>
    match alookup item t.vars with
    | some v => v
    | none => DEFAULT_UNINITIALIZED_VALUE

/-- SymbolTable.__setitem__: writes the variables store and reports the
change callback invocations, unless the name is a constant, in which case
nothing at all happens.  The second component lists the (name, value) pairs
the sym_change_callback would be called with. -/
def SymbolTable.setItem (t : SymbolTable) (item : String) (val : Value) :
    SymbolTable × List (String × Value) :=
  if (alookup item t.consts).isSome then (t, [])
  else ({ t with vars := dictInsert item val t.vars }, [(item, val)])

/-- SymbolTable.setConstant. -/
def SymbolTable.setConstant (t : SymbolTable) (k : String) (v : Value) : SymbolTable :=
  { t with consts := dictInsert k v t.consts }

/-- Symbol-table pair a code block runs against: the engine-global
SymbolTable and the local plain dict supplied to execute_code_block. -/
structure Tabs where
  globals : SymbolTable
  locals : List (String × Value)
deriving DecidableEq, Repr

/-- Modelled from the spec: update_symbol of the missing run_time_support
module.  Assignment targets reach it as plain names for block-local
variables and with a leading underscore for names the source declared
global; global writes go through the SymbolTable write contract (constants
are not writable), local writes update the per-invocation local dict. -/
def update_symbol (tabs : Tabs) (name : String) (v : Value) : Tabs :=
  if name.toList.head? = some '_' then
    { tabs with globals := (tabs.globals.setItem (name.drop 1) v).1 }
  else { tabs with locals := dictInsert name v tabs.locals }

/-- Modelled from the spec: get_symbol of the missing run_time_support
module.  Reads resolve in the local table first and fall back to the global
SymbolTable contract (constants shadow variables, unset names give the
uninitialized sentinel). -/
def get_symbol (tabs : Tabs) (name : String) : Value :=
  match alookup name tabs.locals with
  | some v => v
  | none => tabs.globals.getItem name

/-- Outcome of executing the Python line generated for one postfix line. -/
inductive RunOutcome where
  | assigned (tabs2 : Tabs)
  | returned (v : Value)
  | exprVal (v : Value)
deriving DecidableEq, Repr

/-- Outcome of processing a single token of the toPythonLine walk, at
runtime: the generated code either pushes a (tag, value) pair, halts the
line (assignment or return), or raises. -/
inductive RunStepOut where
  | push (st : List (String × Value))
  | halt (o : RunOutcome)
  | err
deriving Repr

/-- Runtime semantics of one token case of toPythonLine, executing the
code it generates.  The stack holds (generation type tag, runtime value)
pairs; the tag drives the generation-time branches (CONDITIONALS, the
unary-minus guard), the value the runtime arithmetic.  fm lists the names in
the functionmap: generated calls to user or built-in functions are outside
the modelled runtime fragment, and a line whose last token is not "=" has
symbol = None so a stray "=" writes the name "None".  func_name is None for
the top-level block this models, so the function-parameter branch is never
taken. -/
def runTokStep (fm : List String) (tabs : Tabs) (sym : String)
    (st : List (String × Value)) : Tok → RunStepOut
  | .num v => .push ((tagOfLit v, v) :: st)
  | .s str =>
    let o := stripName str
    if (alookup o OPERATOR_FUNCTIONS).isSome then
      if st.length < opArity o then .err
      else
        let params := (st.take (opArity o)).reverse
        let tag := if o ∈ CONDITIONALS then "bool" else promoTag (params.map Prod.fst)
        match pyApplyOp o (params.map Prod.snd) with
        | some v => .push ((tag, v) :: st.drop (opArity o))
        | none => .err
    else if o ∈ fm then .err
    else if o = "unary -" then
      match st with
      | [] => .push []
      | hd :: rest =>
        if hd.1 ∈ (["int", "float"] : List String) then
          match pyApplyOp "operator.mul" [.intV (-1), hd.2] with
          | some v2 => .push ((hd.1, v2) :: rest)
          | none => .err
        else .push (hd :: rest)
    else if o = "and" || o = "or" then
      if st.length < 2 then .err
      else
        match st with
        | b :: a :: rest =>
          let v := if o = "and" then (if a.2.truthy then b.2 else a.2)
                   else (if a.2.truthy then a.2 else b.2)
          .push (("bool", v) :: rest)
        | _ => .err
    else if o = "=" then
      match st with
      | [hd] => .halt (.assigned (update_symbol tabs sym hd.2))
      | _ => .err
    else if o = "return" then
      match st with
      | [hd] => .halt (.returned hd.2)
      | _ => .err
    else .push (("int", get_symbol tabs o) :: st)

/-- Runtime walk over the tokens of a line: runTokStep per token, the final
stack must hold exactly one residual value (stack overflow or underflow is a
fatal error, mirroring the CodeBlockException raises). -/
def runToksAux (fm : List String) (tabs : Tabs) (sym : String) :
    List (String × Value) → List Tok → Option RunOutcome
  | st, [] =>
    match st with
    | [(_, v)] => some (.exprVal v)
    | _ => none
  | st, t :: rest =>
    match runTokStep fm tabs sym st t with
    | .push st2 => runToksAux fm tabs sym st2 rest
    | .halt o => some o
    | .err => none

/-- Map a run outcome to the observable result of the generated line: the
possibly-updated tables plus the value of a return or bare expression. -/
def outcomeResult (tabs : Tabs) : RunOutcome → Tabs × Option Value
  | .assigned tabs2 => (tabs2, none)
  | .returned v => (tabs, some v)
  | .exprVal v => (tabs, some v)

/-- Composite semantics of toPythonLine followed by executing the produced
Python line.  When the line ends in "=" the first token names the assignment
target (code_line[0][1:]) and the walk starts at position 1; otherwise the
whole line is walked with symbol None. -/
def runLine (fm : List String) (tabs : Tabs) (line : List Tok) :
    Option (Tabs × Option Value) :=
  match line.getLast? with
  | some (.s "=") =>
    match line.head? with
    | some (.s s0) =>
        (runToksAux fm tabs (s0.drop 1) [] (line.drop 1)).map (outcomeResult tabs)
    | _ => none
  | _ => (runToksAux fm tabs "None" [] line).map (outcomeResult tabs)

/-- Execution of a whole top-level block: its lines in order, threading the
symbol tables. -/
def runBlock (fm : List String) (tabs : Tabs) (lines : List (List Tok)) :
    Option Tabs :=
  lines.foldlM (fun tb l => (runLine fm tb l).map Prod.fst) tabs

/-- Rendering of a model float, standing in for Python str() on a float. -/
def pyFloatStr (q : PyFloat) : String := toString q.num ++ "/" ++ toString q.den

/-- Single-quote character, used when rendering generated Python code. -/
def quo : String := String.singleton (Char.ofNat 39)

/-- Comma-join of a rendered parameter list. -/
def joinComma (l : List String) : String := String.intercalate "," l

/-- Outcome of one generation step of toPythonLine over the operand stack of
(type tag, rendered Python expression) pairs. -/
inductive GenStepOut where
  | push (st : List (String × String))
  | halt (st : List (String × String))
  | err
deriving Repr

/-- Generation-time semantics of one token case of toPythonLine: the operand
stack holds (type tag, rendered expression) pairs.  fm maps functionmap
names to their arglist lengths; fname, when generating inside a function
body, carries the function name and its parameter names (call sites there
get an extra count+1 argument).  An "=" or return token rewrites the top of
the stack into the final statement and stops the walk.  Numeric literals are
rendered with the Lean toString as a stand-in for Python str().  This
definition is the operator / user-function-call branch: the operator arity
(or the functionmap arity, with a leading _symbols parameter and, inside a
function body, a trailing count+1) decides how many operands are popped, and
the result tag is bool for CONDITIONALS members and the promotion of the
operand tags otherwise. -/
def genArity (fm : List (String × Nat)) (o : String) : Nat :=
  if (alookup o OPERATOR_FUNCTIONS).isSome then opArity o else (alookup o fm).getD 0

/-- Operator and user-function-call branch of the toPythonLine walk; see the
comment on genArity above. -/
def genOpPush (fm : List (String × Nat)) (fname : Option (String × List String))
    (o : String) (st : List (String × String)) : GenStepOut :=
  let isOp := (alookup o OPERATOR_FUNCTIONS).isSome
  let opcall := if isOp then o else "userfunc_" ++ o
  let fparams : List String := if isOp then [] else ["_symbols"]
  if st.length < genArity fm o then .err
  else
    let params := (st.take (genArity fm o)).reverse
    let tag := if opcall ∈ CONDITIONALS then "bool" else promoTag (params.map Prod.fst)
    let countArg : List String := if fname.isSome && !isOp then ["count+1"] else []
    let val := opcall ++ "(" ++ joinComma (fparams ++ params.map Prod.snd ++ countArg) ++ ")"
    .push ((tag, val) :: st.drop (genArity fm o))

/-- Generation-time dispatch of toPythonLine per token; see genOpPush for
the operator and function-call branch.  An "=" or return token rewrites the
top of the stack into the final statement and stops the walk. -/
def genTokStep (fm : List (String × Nat)) (fname : Option (String × List String))
    (sym : String) (st : List (String × String)) : Tok → GenStepOut
  | .num (.intV n) => .push (("int", toString n) :: st)
  | .num (.floatV q) => .push (("float", pyFloatStr q) :: st)
  | .num (.boolV b) => .push (("int", if b then "True" else "False") :: st)
  | .s str =>
    let o := stripName str
    if (alookup o OPERATOR_FUNCTIONS).isSome || (alookup o fm).isSome then
      genOpPush fm fname o st
    else if o = "unary -" then
      match st with
      | [] => .push []
      | hd :: rest =>
        if hd.1 ∈ (["int", "float"] : List String) then
          .push ((hd.1, "operator.mul(-1, " ++ hd.2 ++ ")") :: rest)
        else .push (hd :: rest)
    else if o = "and" || o = "or" then
      if st.length < 2 then .err
      else
        match st with
        | b :: a :: rest =>
          .push (("bool", "((" ++ a.2 ++ ") " ++ o ++ " (" ++ b.2 ++ "))") :: rest)
        | _ => .err
    else if o = "=" then
      match st with
      | hd :: rest =>
        .halt ((hd.1, "update_symbol(_symbols, " ++ quo ++ sym ++ quo ++ ", " ++ hd.2 ++ ")") :: rest)
      | [] => .err
    else if o = "return" then
      match st with
      | hd :: rest => .halt ((hd.1, "return " ++ hd.2) :: rest)
      | [] => .err
    else
      match fname with
      | some pr =>
        if o ∈ pr.2 then .push (("int", o) :: st)
        else .push (("int", "get_symbol(_symbols, " ++ quo ++ o ++ quo ++ ")") :: st)
      | none => .push (("int", "get_symbol(_symbols, " ++ quo ++ o ++ quo ++ ")") :: st)

/-- Generation walk of toPythonLine over a token list, yielding the final
operand stack of (tag, rendered expression) pairs; none models the fatal
CodeBlockException raises. -/
def genToks (fm : List (String × Nat)) (fname : Option (String × List String))
    (sym : String) : List (String × String) → List Tok → Option (List (String × String))
  | st, [] => some st
  | st, t :: rest =>
    match genTokStep fm fname sym st t with
    | .push st2 => genToks fm fname sym st2 rest
    | .halt st2 => some st2
    | .err => none

/-- Compile-time errors of the engine paths modelled here. -/
inductive CErr where
  | syntaxErr
  | unknownFunction (f : String)
  | tooFewArgs (f : String)
  | tooManyArgs (f : String)
  | duplicateBlock (nm : String)
  | unknownBlock (nm : String)
  | evalErr
  | runtimeErr
deriving DecidableEq, Repr

/-- Inner loop of CodeBlock.countFunctionArgs over the tokens after the
called function name: arg_count becomes 1 as soon as any token follows the
name, a call to a zero-arg function aborts immediately, tokens naming
functions add their arity minus one to the skip count, and commas either
consume a skip or count a further argument. -/
def cfaLoop (fm : List (String × Nat)) (fname : String) (arity : Nat) :
    List String → Nat → Nat → Except CErr Nat
  | [], argCount, _ => .ok argCount
  | t :: rest, argCount, skip =>
    let ac := if argCount = 0 then 1 else argCount
    if arity = 0 then .error (.tooManyArgs fname)
    else
      let skip2 := match alookup t fm with
        | some a2 => skip + (a2 - 1)
        | none => skip
      if t = "," then
        if 0 < skip2 then cfaLoop fm fname arity rest ac (skip2 - 1)
        else cfaLoop fm fname arity rest (ac + 1) skip2
      else cfaLoop fm fname arity rest ac skip2

/-- CodeBlock.countFunctionArgs: the parse action run on every recognized
function call, receiving the flat token list of the call (function name
first, then the raw argument tokens including commas).  An unknown name or
an argument count differing from the functionmap arity raises a
ParseFatalException, aborting the whole compilation. -/
def countFunctionArgs (fm : List (String × Nat)) (toks : List String) : Except CErr Unit :=
  match toks with
  | [] => .ok ()
  | fname :: rest =>
    match alookup fname fm with
    | none => .error (.unknownFunction fname)
    | some arity =>
      match cfaLoop fm fname arity rest 0 0 with
      | .error e => .error e
      | .ok argCount =>
        if argCount < arity then .error (.tooFewArgs fname)
        else if arity < argCount then .error (.tooManyArgs fname)
        else .ok ()

/-- Argument count countFunctionArgs computes for a flat call (no nested
calls): zero when nothing follows the name, else one plus the commas. -/
def flatArgs (rest : List String) : Nat :=
  if rest.isEmpty then 0 else 1 + rest.count ","

/-- Ceiling of the generated recursion guard: the preamble emitted by
pushFuncBlock raises once the implicit count argument exceeds 100. -/
def CALL_DEPTH_CEILING : Nat := 100

/-- Guard test of the generated function preamble: if (count > 100): raise. -/
def depthGuardTrips (count : Nat) : Bool := decide (CALL_DEPTH_CEILING < count)

/-- Parameter list produced by pushFuncBlock for the generated def line: the
declared parameters followed by count=0, so a top-level call site (which
omits the argument) starts the depth counter at 0. -/
def funcDefParams (params : List String) : List String := params ++ ["count=0"]

/-- Execution trace of a function that unconditionally calls itself, as
generated: each inner call site passes count+1, and the preamble raises when
the counter passes the ceiling.  The result is the counter value at which
the raise fires. -/
def selfRecurse (count : Nat) : Nat :=
  if CALL_DEPTH_CEILING < count then count else selfRecurse (count + 1)
termination_by (CALL_DEPTH_CEILING + 1) - count

/-- Lexical token of the source language: number, identifier or punctuation. -/
inductive LTok where
  | num (v : Value)
  | id (s : String)
  | sym (s : String)
deriving DecidableEq, Repr

/-- Rendering of a lexical token, as countFunctionArgs sees raw call tokens. -/
def ltokStr : LTok → String
  | .num (.intV n) => toString n
  | .num (.floatV q) => pyFloatStr q
  | .num (.boolV b) => if b then "True" else "False"
  | .id s => s
  | .sym s => s

/-- Decimal digits to a natural number. -/
def digitsToNat (l : List Char) : Nat := l.foldl (fun a c => a * 10 + (c.toNat - 48)) 0

/-- Identifier continuation characters of the grammar: Word(alphas, alphas+nums+"._$"). -/
def isIdentChar (c : Char) : Bool := c.isAlpha || c.isDigit || c = '.' || c = '_' || c = '$'

/-- Lexer for the statement fragment the claims exercise: integers,
identifiers, the operator/punctuation tokens of the grammar.  Fuel is at
least one more than the number of remaining characters. -/
def lexAux : Nat → List Char → List LTok → Option (List LTok)
  | 0, _, _ => none
  | _ + 1, [], acc => some acc.reverse
  | fuel + 1, c :: cs, acc =>
    if c = ' ' || c = '\t' || c = '\n' || c = '\r' then lexAux fuel cs acc
    else if c.isDigit then
      lexAux fuel ((c :: cs).dropWhile Char.isDigit)
        (.num (.intV ((digitsToNat ((c :: cs).takeWhile Char.isDigit) : ℤ))) :: acc)
    else if c.isAlpha then
      lexAux fuel ((c :: cs).dropWhile isIdentChar)
        (.id (String.mk ((c :: cs).takeWhile isIdentChar)) :: acc)
    else
      match c, cs with
      | '=', '=' :: cs2 => lexAux fuel cs2 (.sym "==" :: acc)
      | '!', '=' :: cs2 => lexAux fuel cs2 (.sym "!=" :: acc)
      | '<', '=' :: cs2 => lexAux fuel cs2 (.sym "<=" :: acc)
      | '>', '=' :: cs2 => lexAux fuel cs2 (.sym ">=" :: acc)
      | _, _ =>
        if c = '+' || c = '-' || c = '*' || c = '/' || c = '%' || c = '^' ||
           c = '(' || c = ')' || c = '=' || c = '<' || c = '>' || c = ',' then
          lexAux fuel cs (.sym (String.singleton c) :: acc)
        else none

/-- OPERATOR_REPLACEMENTS of CodeBlock, applied by the infix-to-postfix
conversion the parse actions call on operator tokens. -/
def opReplace (s : String) : String :=
  if s = "+" then "operator.add"
  else if s = "-" then "operator.sub"
  else if s = "*" then "operator.mul"
  else if s = "/" then "operator.truediv"
  else if s = "%" then "operator.mod"
  else if s = "<" then "operator.lt"
  else if s = "not" then "operator.not_"
  else if s = "<=" then "operator.le"
  else if s = ">" then "operator.gt"
  else if s = ">=" then "operator.ge"
  else if s = "==" then "operator.eq"
  else if s = "!=" then "operator.ne"
  else if s = "^" then "math.pow"
  else s

mutual

/-- Grammar production atom with its parse actions: a run of unary minus
signs, then a number, a function call (validated by countFunctionArgs, its
arguments contributing their postfix first and the call name last), a bare
identifier (postfix symbol reference with a leading underscore) or a
parenthesized combinatorial; pushUMinus appends one "unary -" per minus
sign after the atom tokens. -/
def parseAtom (fm : List (String × Nat)) : Nat → List LTok → Except CErr (List Tok × List LTok)
  | 0, _ => .error .syntaxErr
  | fuel + 1, toks =>
    let minusCount := (toks.takeWhile (fun t => t == LTok.sym "-")).length
    match toks.dropWhile (fun t => t == LTok.sym "-") with
    | .num v :: r => .ok (.num v :: List.replicate minusCount (.s "unary -"), r)
    | .id f :: .sym "(" :: r =>
      match r with
      | .sym ")" :: r2 =>
        match countFunctionArgs fm [f] with
        | .error e => .error e
        | .ok _ => .ok (.s ("_" ++ f) :: List.replicate minusCount (.s "unary -"), r2)
      | _ =>
        match parseCallArgs fm fuel r with
        | .error e => .error e
        | .ok (argsPix, r2) =>
          match r2 with
          | .sym ")" :: r3 =>
            match countFunctionArgs fm (f :: (r.take (r.length - r2.length)).map ltokStr) with
            | .error e => .error e
            | .ok _ =>
              .ok (argsPix ++ .s ("_" ++ f) :: List.replicate minusCount (.s "unary -"), r3)
          | _ => .error .syntaxErr
    | .id x :: r => .ok (.s ("_" ++ x) :: List.replicate minusCount (.s "unary -"), r)
    | .sym "(" :: r =>
      match parseCombinatorial fm fuel r with
      | .error e => .error e
      | .ok (p, r2) =>
        match r2 with
        | .sym ")" :: r3 => .ok (p ++ List.replicate minusCount (.s "unary -"), r3)
        | _ => .error .syntaxErr
    | _ => .error .syntaxErr

/-- Comma-separated call arguments, each a combinatorial. -/
def parseCallArgs (fm : List (String × Nat)) : Nat → List LTok → Except CErr (List Tok × List LTok)
  | 0, _ => .error .syntaxErr
  | fuel + 1, toks =>
    match parseCombinatorial fm fuel toks with
    | .error e => .error e
    | .ok (p, r) =>
      match r with
      | .sym "," :: r2 =>
        match parseCallArgs fm fuel r2 with
        | .error e => .error e
        | .ok (ps, r3) => .ok (p ++ ps, r3)
      | _ => .ok (p, r)

/-- Grammar production factor: atom [ ^ factor ], the recursion making the
exponent right-associative; pushFirst appends math.pow after the recursive
factor. -/
def parseFactor (fm : List (String × Nat)) : Nat → List LTok → Except CErr (List Tok × List LTok)
  | 0, _ => .error .syntaxErr
  | fuel + 1, toks =>
    match parseAtom fm fuel toks with
    | .error e => .error e
    | .ok (a, r) =>
      match r with
      | .sym "^" :: r2 =>
        match parseFactor fm fuel r2 with
        | .error e => .error e
        | .ok (f, r3) => .ok (a ++ f ++ [.s "math.pow"], r3)
      | _ => .ok (a, r)

/-- Grammar production term: factor ( multop factor )*, the operator pushed
after each right factor (left-associative chain). -/
def parseTerm (fm : List (String × Nat)) : Nat → List LTok → Except CErr (List Tok × List LTok)
  | 0, _ => .error .syntaxErr
  | fuel + 1, toks =>
    match parseFactor fm fuel toks with
    | .error e => .error e
    | .ok (a, r) => parseTermRest fm fuel a r

/-- Trailing ( multop factor )* of a term. -/
def parseTermRest (fm : List (String × Nat)) : Nat → List Tok → List LTok → Except CErr (List Tok × List LTok)
  | 0, _, _ => .error .syntaxErr
  | fuel + 1, acc, toks =>
    match toks with
    | .sym c :: r =>
      if c = "*" || c = "/" || c = "%" then
        match parseFactor fm fuel r with
        | .error e => .error e
        | .ok (f, r2) => parseTermRest fm fuel (acc ++ f ++ [.s (opReplace c)]) r2
      else .ok (acc, toks)
    | _ => .ok (acc, toks)

/-- Grammar production expr: term ( addop term )*. -/
def parseExpr (fm : List (String × Nat)) : Nat → List LTok → Except CErr (List Tok × List LTok)
  | 0, _ => .error .syntaxErr
  | fuel + 1, toks =>
    match parseTerm fm fuel toks with
    | .error e => .error e
    | .ok (a, r) => parseExprRest fm fuel a r

/-- Trailing ( addop term )* of an expr. -/
def parseExprRest (fm : List (String × Nat)) : Nat → List Tok → List LTok → Except CErr (List Tok × List LTok)
  | 0, _, _ => .error .syntaxErr
  | fuel + 1, acc, toks =>
    match toks with
    | .sym c :: r =>
      if c = "+" || c = "-" then
        match parseTerm fm fuel r with
        | .error e => .error e
        | .ok (f, r2) => parseExprRest fm fuel (acc ++ f ++ [.s (opReplace c)]) r2
      else .ok (acc, toks)
    | _ => .ok (acc, toks)

/-- Grammar production combinatorial: expr ( (boolop | compareop) expr )*;
the leading optional not is outside the modelled statement fragment. -/
def parseCombinatorial (fm : List (String × Nat)) : Nat → List LTok → Except CErr (List Tok × List LTok)
  | 0, _ => .error .syntaxErr
  | fuel + 1, toks =>
    match parseExpr fm fuel toks with
    | .error e => .error e
    | .ok (a, r) => parseCombRest fm fuel a r

/-- Trailing ( (boolop | compareop) expr )* of a combinatorial; and/or stay
raw tokens, comparisons are renamed by OPERATOR_REPLACEMENTS. -/
def parseCombRest (fm : List (String × Nat)) : Nat → List Tok → List LTok → Except CErr (List Tok × List LTok)
  | 0, _, _ => .error .syntaxErr
  | fuel + 1, acc, toks =>
    match toks with
    | .sym c :: r =>
      if c = "==" || c = "!=" || c = "<=" || c = "<" || c = ">=" || c = ">" then
        match parseExpr fm fuel r with
        | .error e => .error e
        | .ok (f, r2) => parseCombRest fm fuel (acc ++ f ++ [.s (opReplace c)]) r2
      else .ok (acc, toks)
    | .id c :: r =>
      if c = "and" || c = "or" then
        match parseExpr fm fuel r with
        | .error e => .error e
        | .ok (f, r2) => parseCombRest fm fuel (acc ++ f ++ [.s c]) r2
      else .ok (acc, toks)
    | _ => .ok (acc, toks)

end

/-- Assignment statement with its pushAssignment action: the target symbol
(with a "_" prefix, "__" when the global keyword precedes it) first, the
postfix of the right-hand side, then the "=" marker. -/
def parseAssignment (fm : List (String × Nat)) (fuel : Nat) (toks : List LTok) :
    Except CErr (List Tok × List LTok) :=
  match toks with
  | .id "global" :: .id name :: .sym "=" :: r =>
    match parseCombinatorial fm fuel r with
    | .error e => .error e
    | .ok (c, r2) => .ok (.s ("__" ++ name) :: c ++ [.s "="], r2)
  | .id name :: .sym "=" :: r =>
    match parseCombinatorial fm fuel r with
    | .error e => .error e
    | .ok (c, r2) => .ok (.s ("_" ++ name) :: c ++ [.s "="], r2)
  | _ => .error .syntaxErr

/-- OneOrMore assignment, consuming the whole token stream. -/
def parseProgram (fm : List (String × Nat)) : Nat → List LTok → Except CErr (List (List Tok))
  | 0, _ => .error .syntaxErr
  | fuel + 1, toks =>
    match parseAssignment fm fuel toks with
    | .error e => .error e
    | .ok (line, r) =>
      if r.isEmpty then .ok [line]
      else
        match parseProgram fm fuel r with
        | .error e => .error e
        | .ok lines => .ok (line :: lines)

/-- Constant folding of one line inside the compilation pipeline; a raised
evaluation error aborts the compilation. -/
def reduceLineE (l : List Tok) : Except CErr (List Tok) :=
  match reduceLine l with
  | .ok l2 => .ok l2
  | _ => .error .evalErr

/-- Compilation pipeline of CodeBlockGenerator.wrap_code_block for the
modelled statement fragment: lex, parse (running the parse actions,
including countFunctionArgs validation), then constant-fold every line. -/
def compile (fm : List (String × Nat)) (src : String) : Except CErr (List (List Tok)) :=
  match lexAux (src.toList.length + 1) src.toList [] with
  | none => .error .syntaxErr
  | some lt =>
    match parseProgram fm (4 * lt.length + 16) lt with
    | .error e => .error e
    | .ok lines => lines.mapM reduceLineE

/-- LanguageEngine state: the global symbol table, the functionmap of
known function arities (built-ins plus host-registered), the registered
code blocks and the per-block persistent local tables. -/
structure Engine where
  global_symbol_table : SymbolTable
  functionmap : List (String × Nat)
  code_blocks : List (String × List (List Tok))
  local_tables : List (String × List (String × Value))
deriving DecidableEq, Repr

/-- Rational standing in for the Python float math.pi. -/
def pyPi : Value := .floatV (mkF 3141592653589793 (10 ^ 15))

/-- Rational standing in for the Python float math.e. -/
def pyE : Value := .floatV (mkF 2718281828459045 (10 ^ 15))

/-- Built-in function arities of LanguageEngine.__init__: the lengths of the
arglist entries for distance, randint and time. -/
def initialFunctionmap : List (String × Nat) := [("distance", 2), ("randint", 1), ("time", 0)]

/-- LanguageEngine.__init__: constants pi and e, the built-in functionmap,
no code blocks, no local tables. -/
def initialEngine : Engine :=
  { global_symbol_table := { consts := [("pi", pyPi), ("e", pyE)], vars := [] }
    functionmap := initialFunctionmap
    code_blocks := []
    local_tables := [] }

/-- LanguageEngine.register_code_block: a duplicate name raises before
anything is touched; otherwise the source is compiled and the resulting unit
stored under the name.  A compilation error propagates, leaving no partial
unit registered. -/
def register (e : Engine) (name : String) (src : String) : Except CErr Engine :=
  if (alookup name e.code_blocks).isSome then .error (.duplicateBlock name)
  else
    match compile e.functionmap src with
    | .error er => .error er
    | .ok lines => .ok { e with code_blocks := (name, lines) :: e.code_blocks }

/-- LanguageEngine.execute_code_block: an unknown name raises before any
state is touched.  When the supplied local table is non-empty (truthy) it is
merged into the per-block persistent table; the block then runs against the
globals paired with the caller-supplied local table itself, whose final
contents are returned alongside the engine. -/
def execute (e : Engine) (name : String) (loc : List (String × Value)) :
    Except CErr (Engine × List (String × Value)) :=
  match alookup name e.code_blocks with
  | none => .error (.unknownBlock name)
  | some lines =>
    let lts := if loc.isEmpty then e.local_tables
      else dictInsert name (dictUpdate ((alookup name e.local_tables).getD []) loc) e.local_tables
    match runBlock (e.functionmap.map Prod.fst) { globals := e.global_symbol_table, locals := loc } lines with
    | none => .error .runtimeErr
    | some tabs2 =>
      .ok ({ e with global_symbol_table := tabs2.globals, local_tables := lts }, tabs2.locals)

/-- LanguageEngine.unregister_code_block: delete the unit when the name is
registered, otherwise do nothing. -/
def unregister (e : Engine) (name : String) : Engine :=
  { e with code_blocks := e.code_blocks.filter (fun p => !(p.1 == name)) }

/-- Pipeline used by the round-trip theorems: register a single-block source
under a fresh engine, execute it once with an empty local table, and return
that local table afterwards. -/
def registerAndRunLocals (src : String) : Except CErr (List (String × Value)) :=
  match register initialEngine "b" src with
  | .error e => .error e
  | .ok eng =>
    match execute eng "b" [] with
    | .error e => .error e
    | .ok (_, d) => .ok d

/-- Scoping scenario of the spec: register b1 with source x = 5, execute it
twice with an empty local table; result is the persistent local table the
engine then holds for b1, and the x entry of each of the transient local
tables the two runs actually wrote to. -/
def scopingScenario :
    Except CErr (Option (List (String × Value)) × Option Value × Option Value) :=
  match register initialEngine "b1" "x = 5" with
  | .error e => .error e
  | .ok e1 =>
    match execute e1 "b1" [] with
    | .error e => .error e
    | .ok (e2, d1) =>
      match execute e2 "b1" [] with
      | .error e => .error e
      | .ok (e3, d2) => .ok (alookup "b1" e3.local_tables, alookup "x" d1, alookup "x" d2)

/-- Symbol-table pair with empty tables, used by concrete scenarios. -/
def emptyTabs : Tabs := { globals := { consts := [], vars := [] }, locals := [] }

/-- Lookup of a key inside an association list produced by filtering that key
out always fails. -/
theorem alookup_filter_self {α : Type} (n : String) (l : List (String × α)) :
    alookup n (l.filter (fun p => !(p.1 == n))) = none := by
  induction l with
  | nil => rfl
  | cons p rest ih =>
    by_cases h : p.1 = n
    · simpa [List.filter_cons, h] using ih
    · simpa [List.filter_cons, h, alookup, Ne.symm h] using ih

/-- Filtering a key out of an association list that does not contain it is
the identity. -/
theorem filter_of_alookup_none {α : Type} (n : String) (l : List (String × α))
    (h : alookup n l = none) : l.filter (fun p => !(p.1 == n)) = l := by
  induction l with
  | nil => rfl
  | cons p rest ih =>
    by_cases hc : n = p.1
    · simp [alookup, hc] at h
    · have h2 : alookup n rest = none := by simpa [alookup, hc] using h
      have hp : (p.1 == n) = false := by
        rw [beq_eq_false_iff_ne]
        exact fun he => hc he.symm
      simp [List.filter_cons, hp, ih h2]

/-- Successful association-list lookup yields a member pair. -/
theorem alookup_some_mem {α : Type} (k : String) (v : α) :
    ∀ l : List (String × α), alookup k l = some v → (k, v) ∈ l := by
  intro l
  induction l with
  | nil => intro h; cases h
  | cons p rest ih =>
    intro h
    rcases p with ⟨pk, pv⟩
    by_cases hc : k = pk
    · have hv : pv = v := by simpa [alookup, hc] using h
      subst hc; subst hv; exact List.mem_cons_self _ _
    · exact List.mem_cons_of_mem _ (ih (by simpa [alookup, hc] using h))

/-- C9: reading a name present in neither the constants nor the variables
store returns the fixed uninitialized sentinel, which is the reserved
numeric extreme -sys.maxint - 1, and a name present in the constants store
reads as the constant even when a same-named variable exists. -/
theorem c9_uninitialized_sentinel_and_const_shadow :
    (∀ (t : SymbolTable) (n : String), alookup n t.consts = none → alookup n t.vars = none →
      t.getItem n = DEFAULT_UNINITIALIZED_VALUE) ∧
    (∀ (t : SymbolTable) (n : String) (c : Value), alookup n t.consts = some c → t.getItem n = c) ∧
    DEFAULT_UNINITIALIZED_VALUE = .intV (-sysMaxint - 1) := by
  refine ⟨?_, ?_, rfl⟩
  · intro t n h1 h2; simp [SymbolTable.getItem, h1, h2]
  · intro t n c h; simp [SymbolTable.getItem, h]

/-- Witness for C9 at concrete tables: the empty table yields the sentinel,
and a constant a=1 shadows the variable a=2. -/
theorem c9_uninitialized_sentinel_and_const_shadow_witness :
    SymbolTable.getItem { consts := [], vars := [] } "x" = DEFAULT_UNINITIALIZED_VALUE ∧
    SymbolTable.getItem { consts := [("a", .intV 1)], vars := [("a", .intV 2)] } "a" = .intV 1 :=
  ⟨c9_uninitialized_sentinel_and_const_shadow.1 { consts := [], vars := [] } "x" rfl rfl,
   c9_uninitialized_sentinel_and_const_shadow.2.1
     { consts := [("a", .intV 1)], vars := [("a", .intV 2)] } "a" (.intV 1) rfl⟩

/-- C10: writing a name that is in the constants store through the item-write
interface is a silent no-op: the table is unchanged and the change callback
receives no invocation. -/
theorem c10_setitem_const_noop :
    ∀ (t : SymbolTable) (n : String) (v : Value),
      (alookup n t.consts).isSome → t.setItem n v = (t, []) := by
  intro t n v h
  simp [SymbolTable.setItem, h]

/-- Witness for C10: writing the constant a of a concrete table changes
nothing and fires no callback. -/
theorem c10_setitem_const_noop_witness :
    SymbolTable.setItem { consts := [("a", .intV 1)], vars := [] } "a" (.intV 7) =
      ({ consts := [("a", .intV 1)], vars := [] }, []) :=
  c10_setitem_const_noop { consts := [("a", .intV 1)], vars := [] } "a" (.intV 7) (by decide)

/-- C6: registering an already-registered name fails, leaving the stored
unit as it was; executing an unregistered name fails (the membership test
precedes every state change); unregistering removes the named unit and is a
no-op on an absent name. -/
theorem c6_registry_lifecycle :
    (∀ e name src u, alookup name e.code_blocks = some u →
       register e name src = .error (.duplicateBlock name) ∧
       alookup name e.code_blocks = some u) ∧
    (∀ e name loc, alookup name e.code_blocks = none →
       execute e name loc = .error (.unknownBlock name)) ∧
    (∀ e name, alookup name (unregister e name).code_blocks = none) ∧
    (∀ e name, alookup name e.code_blocks = none → unregister e name = e) := by
  refine ⟨?_, ?_, ?_, ?_⟩
  · intro e name src u h
    exact ⟨by simp [register, h], h⟩
  · intro e name loc h
    simp [execute, h]
  · intro e name
    exact alookup_filter_self name e.code_blocks
  · intro e name h
    have := filter_of_alookup_none name e.code_blocks h
    cases e
    simpa [unregister] using this

/-- Witness for C6 at a concrete engine holding one block b1. -/
theorem c6_registry_lifecycle_witness :
    (register { initialEngine with code_blocks := [("b1", [])] } "b1" "x = 5" =
       .error (.duplicateBlock "b1") ∧
     alookup "b1" ({ initialEngine with code_blocks := [("b1", [])] } : Engine).code_blocks =
       some []) ∧
    execute initialEngine "nope" [] = .error (.unknownBlock "nope") ∧
    alookup "b1" (unregister { initialEngine with code_blocks := [("b1", [])] } "b1").code_blocks = none ∧
    unregister initialEngine "b1" = initialEngine :=
  ⟨c6_registry_lifecycle.1 { initialEngine with code_blocks := [("b1", [])] } "b1" "x = 5" [] rfl,
   c6_registry_lifecycle.2.1 initialEngine "nope" [] rfl,
   c6_registry_lifecycle.2.2.1 { initialEngine with code_blocks := [("b1", [])] } "b1",
   c6_registry_lifecycle.2.2.2 initialEngine "b1" rfl⟩

/-- Value of selfRecurse everywhere: the raise fires at the first counter
value past the ceiling, so starting below the ceiling the counter tops out
at exactly ceiling + 1. -/
theorem selfRecurse_eq_max :
    ∀ d c, (CALL_DEPTH_CEILING + 1) - c ≤ d →
      selfRecurse c = max (CALL_DEPTH_CEILING + 1) c := by
  intro d
  induction d with
  | zero =>
    intro c h
    have hc : CALL_DEPTH_CEILING < c := by omega
    rw [selfRecurse, if_pos hc]
    omega
  | succ d ih =>
    intro c h
    by_cases hc : CALL_DEPTH_CEILING < c
    · rw [selfRecurse, if_pos hc]; omega
    · rw [selfRecurse, if_neg hc, ih (c + 1) (by omega)]
      rw [Nat.max_def, Nat.max_def]
      split <;> split <;> omega

/-- C4: the generated preamble raises exactly when the implicit counter
exceeds the ceiling of 100; the counter parameter defaults to 0 (so a
top-level call, which omits it, starts at 0) while a call site inside a
function body is rendered with count+1; and a function that calls itself
unconditionally raises at counter value 101 = ceiling + 1, never more than
one past the ceiling. -/
theorem c4_recursion_depth_guard :
    (∀ c, depthGuardTrips c = true ↔ CALL_DEPTH_CEILING < c) ∧
    CALL_DEPTH_CEILING = 100 ∧
    funcDefParams [] = ["count=0"] ∧
    genToks [("f", 0)] (some ("f", [])) "None" [] [.s "_f"] =
      some [("int", "userfunc_f(_symbols,count+1)")] ∧
    genToks [("f", 0)] none "None" [] [.s "_f"] =
      some [("int", "userfunc_f(_symbols)")] ∧
    selfRecurse 0 = CALL_DEPTH_CEILING + 1 ∧
    (∀ c, c ≤ CALL_DEPTH_CEILING → selfRecurse c = CALL_DEPTH_CEILING + 1) := by
  refine ⟨?_, rfl, rfl, rfl, rfl, ?_, ?_⟩
  · intro c; simp [depthGuardTrips]
  · rw [selfRecurse_eq_max (CALL_DEPTH_CEILING + 1) 0 (by omega)]; omega
  · intro c hc
    rw [selfRecurse_eq_max (CALL_DEPTH_CEILING + 1) c (by omega)]
    omega

/-- Witness for C4: the guard at the concrete counters 100 and 101, and the
self-recursion trace from counter 7. -/
theorem c4_recursion_depth_guard_witness :
    (depthGuardTrips 101 = true ↔ CALL_DEPTH_CEILING < 101) ∧
    selfRecurse 7 = CALL_DEPTH_CEILING + 1 :=
  ⟨c4_recursion_depth_guard.1 101,
   c4_recursion_depth_guard.2.2.2.2.2.2 7 (by decide)⟩

/-- C3: the full pipeline on x = 2 + 3 * 4 assigns 14 to x, and on
x = 2 ^ 3 ^ 2 assigns 512 (the exponent is right-associative), not 64. -/
theorem c3_round_trip_precedence :
    registerAndRunLocals "x = 2 + 3 * 4" = .ok [("x", .intV 14)] ∧
    registerAndRunLocals "x = 2 ^ 3 ^ 2" = .ok [("x", .intV 512)] ∧
    (.intV 512 : Value) ≠ .intV 64 := by
  refine ⟨by rfl, by rfl, by decide⟩

/-- C1: the scoping scenario of the spec evaluated on the code.  After
registering b1 with source x = 5 and executing it twice with an empty local
table, the engine holds no persistent local table for b1 at all (the falsy
empty dict skips the merge, and the run is given the caller-supplied dict
rather than the persistent table), while the value 5 for x lands in the two
transient caller-supplied dicts that are discarded.  Reading x from the
per-block local table therefore cannot yield 5, contradicting the claim. -/
theorem c1_local_table_never_persisted :
    scopingScenario = .ok (none, some (.intV 5), some (.intV 5)) := by rfl

/-- Value of the countFunctionArgs loop on a flat token list (one containing
no function names): the count starts at 1 as soon as any token is present
and grows by one per comma. -/
theorem cfaLoop_flat (fm : List (String × Nat)) (f : String) (a : Nat) :
    ∀ (rest : List String) (ac : Nat), 1 ≤ a →
      rest.all (fun t => (alookup t fm).isNone) →
      cfaLoop fm f a rest ac 0 =
        .ok (if rest.isEmpty then ac else max ac 1 + rest.count ",") := by
  intro rest
  induction rest with
  | nil => intro ac _ _; simp [cfaLoop]
  | cons t r ih =>
    intro ac ha hall
    rw [List.all_cons] at hall
    obtain ⟨h1, h2⟩ := Bool.and_eq_true_iff.mp hall
    have h1' : alookup t fm = none := Option.isNone_iff_eq_none.mp h1
    have ha0 : ¬(a = 0) := by omega
    have hm : (if ac = 0 then 1 else ac) = max ac 1 := by
      rcases Nat.eq_zero_or_pos ac with h | h
      · simp [h]
      · rw [if_neg (by omega), Nat.max_eq_left h]
    by_cases ht : t = ","
    · subst ht
      have hstep : cfaLoop fm f a ("," :: r) ac 0 =
          cfaLoop fm f a r (max ac 1 + 1) 0 := by
        simp [cfaLoop, ha0, h1', hm]
      rw [hstep, ih (max ac 1 + 1) ha h2]
      congr 1
      rcases r with _ | ⟨t2, r2⟩ <;> simp [List.count_cons] <;> omega
    · have hstep : cfaLoop fm f a (t :: r) ac 0 =
          cfaLoop fm f a r (max ac 1) 0 := by
        simp [cfaLoop, ha0, h1', ht, hm]
      rw [hstep, ih (max ac 1) ha h2]
      congr 1
      rcases r with _ | ⟨t2, r2⟩ <;> simp [List.count_cons, ht] <;> omega

/-- Value of countFunctionArgs on a flat call: it succeeds exactly when the
comma-derived argument count matches the declared arity, and otherwise
raises the matching too-few or too-many fatal error. -/
theorem countFunctionArgs_flat (fm : List (String × Nat)) (f : String) (a : Nat)
    (rest : List String) (hf : alookup f fm = some a)
    (hall : rest.all (fun t => (alookup t fm).isNone)) :
    countFunctionArgs fm (f :: rest) =
      (if flatArgs rest < a then .error (.tooFewArgs f)
       else if a < flatArgs rest then .error (.tooManyArgs f)
       else .ok ()) := by
  by_cases ha : a = 0
  · subst ha
    rcases rest with _ | ⟨t, r⟩
    · simp [countFunctionArgs, hf, cfaLoop, flatArgs]
    · simp [countFunctionArgs, hf, cfaLoop, flatArgs]
  · have ha1 : 1 ≤ a := by omega
    have hloop := cfaLoop_flat fm f a rest 0 ha1 hall
    rcases rest with _ | ⟨t, r⟩
    · simp only [List.isEmpty_nil, if_true] at hloop
      simp [countFunctionArgs, hf, hloop, flatArgs]
    · simp only [List.isEmpty_cons, if_false] at hloop
      have hmax : max 0 1 = 1 := rfl
      rw [hmax] at hloop
      simp [countFunctionArgs, hf, hloop, flatArgs]

/-- C5: a call whose head identifier is absent from the functionmap aborts
compilation with the unknown-function fatal error; a flat call aborts with
an argument-count fatal error exactly when the comma-derived argument count
differs from the declared arity (in particular randint with zero arguments
raises too-few-arguments, end to end through the pipeline); and whenever
compilation fails, register propagates the error, so no partial compiled
unit is stored. -/
theorem c5_unknown_function_and_arity_errors :
    (∀ (fm : List (String × Nat)) (f : String) (rest : List String),
       alookup f fm = none →
       countFunctionArgs fm (f :: rest) = .error (.unknownFunction f)) ∧
    (∀ (fm : List (String × Nat)) (f : String) (a : Nat) (rest : List String),
       alookup f fm = some a →
       rest.all (fun t => (alookup t fm).isNone) →
       countFunctionArgs fm (f :: rest) =
         (if flatArgs rest < a then .error (.tooFewArgs f)
          else if a < flatArgs rest then .error (.tooManyArgs f)
          else .ok ())) ∧
    countFunctionArgs initialFunctionmap ["randint"] = .error (.tooFewArgs "randint") ∧
    compile initialFunctionmap "x = randint()" = .error (.tooFewArgs "randint") ∧
    compile initialFunctionmap "x = foo(1)" = .error (.unknownFunction "foo") ∧
    (∀ (e : Engine) (name src : String) (er : CErr),
       compile e.functionmap src = .error er →
       (alookup name e.code_blocks).isNone →
       register e name src = .error er) := by
  refine ⟨?_, countFunctionArgs_flat, by rfl, by rfl, by rfl, ?_⟩
  · intro fm f rest h
    simp [countFunctionArgs, h]
  · intro e name src er hc hn
    have hn' : ¬(alookup name e.code_blocks).isSome = true := by
      simp [Option.isNone_iff_eq_none.mp hn]
    simp [register, hn', hc]

/-- Witness for C5: the unknown function foo, the one-argument built-in
randint called with no arguments, and a failed registration leaving the
engine without the attempted block. -/
theorem c5_unknown_function_and_arity_errors_witness :
    countFunctionArgs initialFunctionmap ["foo"] = .error (.unknownFunction "foo") ∧
    countFunctionArgs initialFunctionmap ["randint"] =
      (if flatArgs ([] : List String) < 1 then .error (.tooFewArgs "randint")
       else if 1 < flatArgs ([] : List String) then .error (.tooManyArgs "randint")
       else .ok ()) ∧
    register initialEngine "bw" "x = randint()" = .error (.tooFewArgs "randint") :=
  ⟨c5_unknown_function_and_arity_errors.1 initialFunctionmap "foo" [] rfl,
   c5_unknown_function_and_arity_errors.2.1 initialFunctionmap "randint" 1 [] rfl rfl,
   c5_unknown_function_and_arity_errors.2.2.2.2.2 initialEngine "bw" "x = randint()"
     (.tooFewArgs "randint") (by rfl) rfl⟩

/-- C5 (counterexample to the claimed statement): a wrong supplied argument
count does not always abort with an argument-count fatal error.  In
randint(distance, 5) the bare identifier argument distance names a
functionmap entry of arity 2, so the comma-skip heuristic of
countFunctionArgs adds 2 - 1 = 1 to the skip count and the lone comma is
consumed as a skip instead of being counted: arg_count stays 1, equal to
the declared arity of randint, and the check passes although two argument
expressions were supplied.  The same call with a first argument that is not
a functionmap name is rejected with the too-many-arguments error. -/
theorem c5_skip_heuristic_counterexample :
    countFunctionArgs initialFunctionmap ["randint", "distance", ",", "5"] = .ok () ∧
    flatArgs ["distance", ",", "5"] = 2 ∧
    alookup "randint" initialFunctionmap = some 1 ∧
    countFunctionArgs initialFunctionmap ["randint", "y", ",", "5"] =
      .error (.tooManyArgs "randint") ∧
    (2 : Nat) ≠ 1 :=
  ⟨rfl, rfl, rfl, rfl, by decide⟩

/-- Every operator in OPERATOR_FUNCTIONS takes at least one argument. -/
theorem opArity_pos (s : String) (h : (alookup s OPERATOR_FUNCTIONS).isSome) :
    1 ≤ opArity s := by
  obtain ⟨l, hl⟩ := Option.isSome_iff_exists.mp h
  have hmem := alookup_some_mem s l OPERATOR_FUNCTIONS hl
  have hall : ∀ p ∈ OPERATOR_FUNCTIONS, 1 ≤ p.2.length := by decide
  have hlen := hall (s, l) hmem
  simpa [opArity, hl] using hlen

/-- A fold accepted by foldHere strictly shortens the line: an operator fold
removes arity-many operand literals and the operator, replacing them by one
literal, and a unary-minus fold removes the marker. -/
theorem foldHere_changed_length (revPre : List Tok) (str : String) (rest l2 : List Tok)
    (h : foldHere revPre str rest = some (.changed l2)) :
    l2.length + 1 ≤ revPre.length + rest.length + 1 := by
  unfold foldHere at h
  by_cases h1 : (alookup str OPERATOR_FUNCTIONS).isSome
  · rw [if_pos h1] at h
    by_cases h2 : (decide (opArity str ≤ revPre.length) && (revPre.take (opArity str)).all Tok.isNum) = true
    · rw [if_pos h2] at h
      obtain ⟨h2a, _⟩ := Bool.and_eq_true_iff.mp h2
      have hle := of_decide_eq_true h2a
      have hn := opArity_pos str h1
      cases hex : executeOperation str (((revPre.take (opArity str)).map Tok.getNum).reverse) with
      | none => rw [hex] at h; simp at h
      | some v =>
        rw [hex] at h
        have hl : (revPre.drop (opArity str)).reverse ++ .num v :: rest = l2 := by
          simpa using h
        subst hl
        simp only [List.length_append, List.length_reverse, List.length_drop,
          List.length_cons]
        omega
    · rw [if_neg h2] at h; cases h
  · rw [if_neg h1] at h
    by_cases h3 : str = "unary -"
    · rw [if_pos h3] at h
      cases revPre with
      | nil => cases h
      | cons hd tl =>
        cases hd with
        | num v =>
          have hl : tl.reverse ++ .num (negValue v) :: rest = l2 := by simpa using h
          subst hl
          simp only [List.length_append, List.length_reverse, List.length_cons]
          omega
        | s s2 => cases h
    · rw [if_neg h3] at h; cases h

/-- Each successful fold step of the scan strictly shortens the line. -/
theorem foldScan_changed_length :
    ∀ (rest revPre l2 : List Tok), foldScan revPre rest = .changed l2 →
      l2.length + 1 ≤ revPre.length + rest.length := by
  intro rest
  induction rest with
  | nil => intro revPre l2 h; simp [foldScan] at h
  | cons t r ih =>
    intro revPre l2 h
    cases t with
    | num v =>
      have := ih (.num v :: revPre) l2 (by simpa [foldScan] using h)
      simp only [List.length_cons] at this ⊢
      omega
    | s str =>
      rw [foldScan] at h
      cases hf : foldHere revPre str r with
      | some res =>
        rw [hf] at h
        simp only at h
        subst h
        have := foldHere_changed_length revPre str r l2 hf
        simp only [List.length_cons]
        omega
      | none =>
        rw [hf] at h
        simp only at h
        have := ih (.s str :: revPre) l2 h
        simp only [List.length_cons] at this ⊢
        omega

/-- One pass of reduceLine strictly shortens the line when it changes it. -/
theorem stepLine_changed_length (l l2 : List Tok) (h : stepLine l = .changed l2) :
    l2.length < l.length := by
  have := foldScan_changed_length l [] l2 h
  simpa using this

/-- With fuel exceeding the line length, the fueled reduceLine loop never
runs out of fuel: the number of folds is bounded by the line length. -/
theorem reduceAux_not_fuelOut :
    ∀ (fuel : Nat) (l : List Tok), l.length < fuel → reduceAux fuel l ≠ .fuelOut := by
  intro fuel
  induction fuel with
  | zero => intro l h; omega
  | succ fuel ih =>
    intro l h
    rw [reduceAux]
    cases hstep : stepLine l with
    | noChange => simp
    | evalErr => simp
    | changed l2 =>
      have := stepLine_changed_length l l2 hstep
      exact ih l2 (by omega)

/-- A line returned by the fueled reduceLine loop is a normal form: a
further scan finds nothing to fold. -/
theorem reduceAux_ok_normal :
    ∀ (fuel : Nat) (l l2 : List Tok), reduceAux fuel l = .ok l2 →
      stepLine l2 = .noChange := by
  intro fuel
  induction fuel with
  | zero => intro l l2 h; cases h
  | succ fuel ih =>
    intro l l2 h
    rw [reduceAux] at h
    cases hstep : stepLine l with
    | noChange => rw [hstep] at h; cases h; exact hstep
    | evalErr => rw [hstep] at h; cases h
    | changed l3 => rw [hstep] at h; exact ih l3 l2 h

/-- C8: constant folding terminates on every line (the fuel bound of one
more than the line length is never exhausted, each fold strictly shortening
the line), and it is idempotent: a line it returns is a normal form, so
folding it again returns it unchanged. -/
theorem c8_fold_terminates_and_idempotent :
    (∀ l : List Tok, reduceLine l ≠ .fuelOut) ∧
    (∀ l l2 : List Tok, reduceLine l = .ok l2 → reduceLine l2 = .ok l2) := by
  constructor
  · intro l
    exact reduceAux_not_fuelOut (l.length + 1) l (by omega)
  · intro l l2 h
    have hnorm := reduceAux_ok_normal (l.length + 1) l l2 h
    rw [reduceLine, reduceAux, hnorm]

/-- Witness for C8: folding 2 3 + gives the normal form 5, and folding that
result again returns it unchanged. -/
theorem c8_fold_terminates_and_idempotent_witness :
    reduceLine [.num (.intV 2), .num (.intV 3), .s "operator.add"] ≠ .fuelOut ∧
    reduceLine [.num (.intV 5)] = .ok [.num (.intV 5)] :=
  ⟨c8_fold_terminates_and_idempotent.1 [.num (.intV 2), .num (.intV 3), .s "operator.add"],
   c8_fold_terminates_and_idempotent.2
     [.num (.intV 2), .num (.intV 3), .s "operator.add"] [.num (.intV 5)] (by rfl)⟩

/-- Type tags that actually occur on the generation operand stack. -/
def TAGS : List String := ["int", "float", "bool"]

/-- Arithmetic operators of OPERATOR_FUNCTIONS (the non-comparison binary
ones). -/
def arithOps : List String :=
  ["operator.add", "operator.sub", "operator.mul", "operator.truediv",
   "operator.mod", "math.pow"]

/-- Value of the promotion fold for argument tags drawn from TAGS: float
wins when present, otherwise the accumulator survives (the string case of
the source is unreachable, since no token ever carries a string tag). -/
theorem promoAux (tags : List String) :
    ∀ acc, acc ∈ ["int", "float"] → (∀ t ∈ tags, t ∈ TAGS) →
      tags.foldl (fun acc t => if t = "float" then "float" else if t = "string" then "str" else acc) acc =
        if "float" ∈ tags then "float" else acc := by
  induction tags with
  | nil => intro acc _ _; simp
  | cons t r ih =>
    intro acc hacc hall
    have ht : t ∈ TAGS := hall t (List.mem_cons_self _ _)
    have hr : ∀ t2 ∈ r, t2 ∈ TAGS := fun t2 h2 => hall t2 (List.mem_cons_of_mem _ h2)
    simp only [List.foldl_cons]
    have ht3 : t = "int" ∨ t = "float" ∨ t = "bool" := by simpa [TAGS] using ht
    rcases ht3 with rfl | rfl | rfl
    · rw [show (if "int" = "float" then "float" else if "int" = "string" then "str" else acc) = acc from by simp,
        ih acc hacc hr]
      simp
    · rw [show (if "float" = "float" then "float" else if "float" = "string" then "str" else acc) = "float" from by simp,
        ih "float" (by simp) hr]
      simp
    · rw [show (if "bool" = "float" then "float" else if "bool" = "string" then "str" else acc) = acc from by simp,
        ih acc hacc hr]
      simp

/-- Promotion over TAGS arguments: float exactly when a float argument is
present, int otherwise — never bool, never str. -/
theorem promoTag_eq (tags : List String) (h : ∀ t ∈ tags, t ∈ TAGS) :
    promoTag tags = if "float" ∈ tags then "float" else "int" :=
  promoAux tags "int" (by simp) h

/-- genOpPush never halts the walk. -/
theorem genOpPush_ne_halt (fm : List (String × Nat)) (fname : Option (String × List String))
    (o : String) (st st2 : List (String × String)) :
    genOpPush fm fname o st ≠ .halt st2 := by
  by_cases hlen : st.length < genArity fm o <;> simp [genOpPush, hlen]

/-- The stack genOpPush pushes keeps every tag inside TAGS. -/
theorem genOpPush_tags (fm : List (String × Nat)) (fname : Option (String × List String))
    (o : String) (st st2 : List (String × String))
    (hst : ∀ p ∈ st, p.1 ∈ TAGS) (h : genOpPush fm fname o st = .push st2) :
    ∀ p ∈ st2, p.1 ∈ TAGS := by
  simp only [genOpPush] at h
  by_cases hlen : st.length < genArity fm o
  · rw [if_pos hlen] at h; cases h
  · rw [if_neg hlen] at h
    cases h
    intro p hp
    rcases List.mem_cons.mp hp with rfl | hp2
    · have hsub : ∀ t ∈ (st.take (genArity fm o)).reverse.map Prod.fst, t ∈ TAGS := by
        intro t htm
        obtain ⟨q, hq, rfl⟩ := List.mem_map.mp htm
        exact hst q (List.take_subset _ _ (List.mem_reverse.mp hq))
      show (if (if (alookup o OPERATOR_FUNCTIONS).isSome then o else "userfunc_" ++ o) ∈ CONDITIONALS
            then "bool" else promoTag ((st.take (genArity fm o)).reverse.map Prod.fst)) ∈ TAGS
      by_cases hc : (if (alookup o OPERATOR_FUNCTIONS).isSome then o else "userfunc_" ++ o) ∈ CONDITIONALS
      · rw [if_pos hc]
        simp [TAGS]
      · rw [if_neg hc, promoTag_eq _ hsub]
        split <;> simp [TAGS]
    · exact hst p (List.drop_subset _ _ hp2)

/-- One generation step keeps every stack tag inside TAGS. -/
theorem genTokStep_tags (fm : List (String × Nat)) (fname : Option (String × List String))
    (sym : String) (st : List (String × String)) (t : Tok) (st2 : List (String × String))
    (hst : ∀ p ∈ st, p.1 ∈ TAGS)
    (h : genTokStep fm fname sym st t = .push st2 ∨ genTokStep fm fname sym st t = .halt st2) :
    ∀ p ∈ st2, p.1 ∈ TAGS := by
  cases t with
  | num v =>
    rcases h with h | h
    · cases v <;>
        (simp only [genTokStep] at h; cases h; intro p hp;
         rcases List.mem_cons.mp hp with rfl | hp2
         · simp [TAGS]
         · exact hst p hp2)
    · cases v <;> simp [genTokStep] at h
  | s str =>
    simp only [genTokStep] at h
    by_cases hc1 : ((alookup (stripName str) OPERATOR_FUNCTIONS).isSome ||
        (alookup (stripName str) fm).isSome) = true
    · rw [if_pos hc1] at h
      rcases h with h | h
      · exact genOpPush_tags fm fname (stripName str) st st2 hst h
      · exact absurd h (genOpPush_ne_halt fm fname (stripName str) st st2)
    · rw [if_neg hc1] at h
      by_cases hc2 : stripName str = "unary -"
      · rw [if_pos hc2] at h
        rcases st with _ | ⟨hd, tl⟩
        · rcases h with h | h
          · cases h; intro p hp; cases hp
          · cases h
        · replace h :
              (if hd.1 ∈ (["int", "float"] : List String) then
                GenStepOut.push ((hd.1, "operator.mul(-1, " ++ hd.2 ++ ")") :: tl)
              else GenStepOut.push (hd :: tl)) = GenStepOut.push st2 ∨
              (if hd.1 ∈ (["int", "float"] : List String) then
                GenStepOut.push ((hd.1, "operator.mul(-1, " ++ hd.2 ++ ")") :: tl)
              else GenStepOut.push (hd :: tl)) = GenStepOut.halt st2 := h
          by_cases htg : hd.1 ∈ (["int", "float"] : List String)
          · rw [if_pos htg] at h
            rcases h with h | h
            · cases h
              intro p hp
              rcases List.mem_cons.mp hp with rfl | hp2
              · exact hst hd (List.mem_cons_self _ _)
              · exact hst p (List.mem_cons_of_mem _ hp2)
            · cases h
          · rw [if_neg htg] at h
            rcases h with h | h
            · cases h
              intro p hp
              exact hst p hp
            · cases h
      · rw [if_neg hc2] at h
        by_cases hc3 : (decide (stripName str = "and") || decide (stripName str = "or")) = true
        · rw [if_pos hc3] at h
          by_cases hlen : st.length < 2
          · rw [if_pos hlen] at h
            rcases h with h | h <;> cases h
          · rw [if_neg hlen] at h
            rcases st with _ | ⟨b, st1⟩
            · simp at hlen
            · rcases st1 with _ | ⟨a, rest⟩
              · simp at hlen
              · rcases h with h | h
                · cases h
                  intro p hp
                  rcases List.mem_cons.mp hp with rfl | hp2
                  · simp [TAGS]
                  · exact hst p (List.mem_cons_of_mem _ (List.mem_cons_of_mem _ hp2))
                · cases h
        · rw [if_neg hc3] at h
          by_cases hc4 : stripName str = "="
          · rw [if_pos hc4] at h
            rcases st with _ | ⟨hd, tl⟩
            · rcases h with h | h <;> cases h
            · rcases h with h | h
              · cases h
              · cases h
                intro p hp
                rcases List.mem_cons.mp hp with rfl | hp2
                · exact hst hd (List.mem_cons_self _ _)
                · exact hst p (List.mem_cons_of_mem _ hp2)
          · rw [if_neg hc4] at h
            by_cases hc5 : stripName str = "return"
            · rw [if_pos hc5] at h
              rcases st with _ | ⟨hd, tl⟩
              · rcases h with h | h <;> cases h
              · rcases h with h | h
                · cases h
                · cases h
                  intro p hp
                  rcases List.mem_cons.mp hp with rfl | hp2
                  · exact hst hd (List.mem_cons_self _ _)
                  · exact hst p (List.mem_cons_of_mem _ hp2)
            · rw [if_neg hc5] at h
              cases fname with
              | some pr =>
                replace h :
                    (if stripName str ∈ pr.2 then GenStepOut.push (("int", stripName str) :: st)
                     else GenStepOut.push (("int", "get_symbol(_symbols, " ++ quo ++ stripName str ++ quo ++ ")") :: st)) =
                      GenStepOut.push st2 ∨
                    (if stripName str ∈ pr.2 then GenStepOut.push (("int", stripName str) :: st)
                     else GenStepOut.push (("int", "get_symbol(_symbols, " ++ quo ++ stripName str ++ quo ++ ")") :: st)) =
                      GenStepOut.halt st2 := h
                by_cases harg : stripName str ∈ pr.2
                · rw [if_pos harg] at h
                  rcases h with h | h
                  · cases h
                    intro p hp
                    rcases List.mem_cons.mp hp with rfl | hp2
                    · simp [TAGS]
                    · exact hst p hp2
                  · cases h
                · rw [if_neg harg] at h
                  rcases h with h | h
                  · cases h
                    intro p hp
                    rcases List.mem_cons.mp hp with rfl | hp2
                    · simp [TAGS]
                    · exact hst p hp2
                  · cases h
              | none =>
                rcases h with h | h
                · cases h
                  intro p hp
                  rcases List.mem_cons.mp hp with rfl | hp2
                  · simp [TAGS]
                  · exact hst p hp2
                · cases h

/-- The generation walk keeps every operand-stack tag inside TAGS. -/
theorem genToks_tags :
    ∀ (toks : List Tok) (fm : List (String × Nat)) (fname : Option (String × List String))
      (sym : String) (st st2 : List (String × String)),
      genToks fm fname sym st toks = some st2 →
      (∀ p ∈ st, p.1 ∈ TAGS) → ∀ p ∈ st2, p.1 ∈ TAGS := by
  intro toks
  induction toks with
  | nil =>
    intro fm fname sym st st2 h hst
    simp only [genToks] at h
    cases h
    exact hst
  | cons t r ih =>
    intro fm fname sym st st2 h hst
    simp only [genToks] at h
    cases hg : genTokStep fm fname sym st t with
    | push st3 =>
      rw [hg] at h
      exact ih fm fname sym st3 st2 h (genTokStep_tags fm fname sym st t st3 hst (Or.inl hg))
    | halt st3 =>
      rw [hg] at h
      cases h
      exact genTokStep_tags fm fname sym st t st2 hst (Or.inr hg)
    | err => rw [hg] at h; cases h

/-- C7 counterexample: generating code for not applied to a symbol leaves an
int-tagged entry (operator.not_ is missing from CONDITIONALS, and the
promotion loop treats its operand as arithmetic), not the bool tag the
claim asserts for every boolean operator. -/
theorem c7_not_tag_counterexample :
    genToks [] none "None" [] [.s "_a", .s "operator.not_"] =
      some [("int", "operator.not_(get_symbol(_symbols, " ++ quo ++ "a" ++ quo ++ "))")] ∧
    "int" ≠ "bool" := ⟨rfl, by decide⟩

/-- C7 as amended: every operand-stack entry of the generation walk carries
a tag in {int, float, bool}; an arithmetic operator result is float-tagged
exactly when an operand is float-tagged; the six comparison operators and
the and/or combinators push bool-tagged results; but unary not pushes the
arithmetic promotion of its operand tag (int or float), not bool. -/
theorem c7_stack_type_tags :
    (∀ (toks : List Tok) (fm : List (String × Nat)) (fname : Option (String × List String))
       (sym : String) (st2 : List (String × String)),
       genToks fm fname sym [] toks = some st2 → ∀ p ∈ st2, p.1 ∈ TAGS) ∧
    (∀ (fm : List (String × Nat)) (fname : Option (String × List String)) (sym : String)
       (op ta va tb vb : String) (st : List (String × String)),
       op ∈ arithOps → ta ∈ TAGS → tb ∈ TAGS →
       ∃ val, genTokStep fm fname sym ((ta, va) :: (tb, vb) :: st) (.s op) =
         .push ((if ta = "float" ∨ tb = "float" then "float" else "int", val) :: st)) ∧
    (∀ (fm : List (String × Nat)) (fname : Option (String × List String)) (sym : String)
       (op ta va tb vb : String) (st : List (String × String)),
       op ∈ CONDITIONALS →
       ∃ val, genTokStep fm fname sym ((ta, va) :: (tb, vb) :: st) (.s op) =
         .push (("bool", val) :: st)) ∧
    (∀ (fname : Option (String × List String)) (sym : String)
       (op ta va tb vb : String) (st : List (String × String)),
       (op = "and" ∨ op = "or") →
       ∃ val, genTokStep initialFunctionmap fname sym ((ta, va) :: (tb, vb) :: st) (.s op) =
         .push (("bool", val) :: st)) ∧
    (∀ (fm : List (String × Nat)) (fname : Option (String × List String)) (sym : String)
       (ta va : String) (st : List (String × String)),
       ta ∈ TAGS →
       ∃ val, genTokStep fm fname sym ((ta, va) :: st) (.s "operator.not_") =
         .push ((if ta = "float" then "float" else "int", val) :: st)) := by
  refine ⟨fun toks fm fname sym st2 h =>
    genToks_tags toks fm fname sym [] st2 h (by intro p hp; cases hp), ?_, ?_, ?_, ?_⟩
  · intro fm fname sym op ta va tb vb st hop hta htb
    simp only [arithOps, TAGS, List.mem_cons, List.not_mem_nil, or_false] at hop hta htb
    rcases hop with rfl | rfl | rfl | rfl | rfl | rfl <;>
      rcases hta with rfl | rfl | rfl <;> rcases htb with rfl | rfl | rfl <;>
      rcases fname with _ | pr <;> exact ⟨_, rfl⟩
  · intro fm fname sym op ta va tb vb st hop
    simp only [CONDITIONALS, List.mem_cons, List.not_mem_nil, or_false] at hop
    rcases hop with rfl | rfl | rfl | rfl | rfl | rfl <;>
      rcases fname with _ | pr <;> exact ⟨_, rfl⟩
  · intro fname sym op ta va tb vb st hop
    rcases hop with rfl | rfl <;> exact ⟨_, rfl⟩
  · intro fm fname sym ta va st hta
    simp only [TAGS, List.mem_cons, List.not_mem_nil, or_false] at hta
    rcases hta with rfl | rfl | rfl <;> rcases fname with _ | pr <;> exact ⟨_, rfl⟩

/-- Witness for C7: concrete instances of the invariant, the float
promotion, a comparison, a boolean combinator and the not exception. -/
theorem c7_stack_type_tags_witness :
    (∀ p ∈ [(("int" : String), ("1" : String))], p.1 ∈ TAGS) ∧
    (∃ val, genTokStep [] none "None" [("float", "a"), ("int", "b")] (.s "operator.add") =
       .push ((if "float" = "float" ∨ "int" = "float" then "float" else "int", val) :: [])) ∧
    (∃ val, genTokStep [] none "None" [("int", "a"), ("int", "b")] (.s "operator.lt") =
       .push (("bool", val) :: [])) ∧
    (∃ val, genTokStep initialFunctionmap none "None" [("int", "a"), ("int", "b")] (.s "and") =
       .push (("bool", val) :: [])) ∧
    (∃ val, genTokStep [] none "None" [("int", "a")] (.s "operator.not_") =
       .push ((if "int" = "float" then "float" else "int", val) :: [])) :=
  ⟨c7_stack_type_tags.1 [.num (.intV 1)] [] none "None" [("int", "1")] rfl,
   c7_stack_type_tags.2.1 [] none "None" "operator.add" "float" "a" "int" "b" [] (by decide)
     (by decide) (by decide),
   c7_stack_type_tags.2.2.1 [] none "None" "operator.lt" "int" "a" "int" "b" [] (by decide),
   c7_stack_type_tags.2.2.2.1 none "None" "and" "int" "a" "int" "b" [] (Or.inl rfl),
   c7_stack_type_tags.2.2.2.2 [] none "None" "int" "a" [] (by decide)⟩

/-- Tokens on which constant folding provably commutes with the generated
runtime: integer literals, the four integer-exact arithmetic operators (+,
-, * and %), unary minus when the functionmap does not shadow its marker,
and any other string token, which folding leaves in place and both runs
treat identically. -/
def exprTokSafe (fm : List String) : Tok → Bool
  | .num (.intV _) => true
  | .num _ => false
  | .s str =>
    if (alookup str OPERATOR_FUNCTIONS).isSome then
      decide (str ∈ (["operator.add", "operator.sub", "operator.mul", "operator.mod"] : List String))
    else if str = "unary -" then decide (str ∉ fm)
    else true

/-- A postfix line is int-safe when every token is: literals are ints,
operator tokens are drawn from the exact subset, and symbol references,
markers (=, _return) and combinators are unrestricted. -/
def lineSafe (fm : List String) (L : List Tok) : Bool := L.all (exprTokSafe fm)

/-- The shape of the span a single fold consumes and the value it produces,
together with the facts needed to replay it at runtime: either a binary
exact-arithmetic span whose runtime application yields the same integer, or
a unary-minus span over an int literal (with "unary -" not shadowed by a
user function, so the generated code takes the negation branch). -/
def spanOK (fm : List String) (span : List Tok) (v : Value) : Prop :=
  (∃ a b : ℤ, ∃ op,
    span = [.num (.intV a), .num (.intV b), .s op] ∧
    op ∈ (["operator.add", "operator.sub", "operator.mul", "operator.mod"] : List String) ∧
    ∃ n : ℤ, v = .intV n ∧ pyApplyOp op [.intV a, .intV b] = some (.intV n)) ∨
  (∃ a : ℤ, span = [.num (.intV a), .s "unary -"] ∧ v = .intV (-a) ∧ "unary -" ∉ fm)

/-- Decomposition of an equation whose right side ends in a fixed element:
when the left summand B is nonempty it carries that element. -/
theorem append_singleton_decomp {α : Type} :
    ∀ (A B C : List α) (e : α), A ++ B = C ++ [e] → B ≠ [] →
      ∃ B0, B = B0 ++ [e] ∧ C = A ++ B0 := by
  intro A
  induction A with
  | nil =>
    intro B C e h _
    exact ⟨C, by simpa using h, by simp⟩
  | cons a A2 ih =>
    intro B C e h hB
    cases C with
    | nil =>
      simp only [List.cons_append, List.nil_append] at h
      obtain ⟨rfl, h2⟩ := List.cons.inj h
      have : A2 ++ B = [] := h2
      rcases List.append_eq_nil.mp this with ⟨-, rfl⟩
      exact absurd rfl hB
    | cons c C2 =>
      simp only [List.cons_append] at h
      obtain ⟨rfl, h2⟩ := List.cons.inj h
      obtain ⟨B0, hB0, hC⟩ := ih B C2 e h2 hB
      exact ⟨B0, hB0, by simp [hC]⟩

/-- A list of numeric-literal tokens is the literal embedding of its values. -/
theorem nums_roundtrip : ∀ (l : List Tok), l.all Tok.isNum = true →
    (l.map Tok.getNum).map Tok.num = l := by
  intro l
  induction l with
  | nil => intro _; rfl
  | cons t r ih =>
    intro h
    rw [List.all_cons] at h
    obtain ⟨h1, h2⟩ := Bool.and_eq_true_iff.mp h
    cases t with
    | num v => simp [ih h2, Tok.getNum]
    | s s2 => simp [Tok.isNum] at h1

/-- Replacing a suffix by a run-equivalent suffix preserves the runtime walk
under any prefix: the walk processes the prefix identically and then the
hypothesis applies at whatever stack resulted. -/
theorem runToksAux_congr_suffix (fm : List String) (tabs : Tabs) (sym : String)
    (xs ys : List Tok)
    (hxy : ∀ st, runToksAux fm tabs sym st xs = runToksAux fm tabs sym st ys) :
    ∀ (pre : List Tok) (st : List (String × Value)),
      runToksAux fm tabs sym st (pre ++ xs) = runToksAux fm tabs sym st (pre ++ ys) := by
  intro pre
  induction pre with
  | nil => exact hxy
  | cons t pre2 ih =>
    intro st
    simp only [List.cons_append, runToksAux]
    cases hstep : runTokStep fm tabs sym st t with
    | push st2 => exact ih st2
    | halt o => rfl
    | err => rfl

/-- On integer arguments the four safe arithmetic operators fold to exactly
the integer the runtime computes: the folding cast int(...) is the identity
there. -/
theorem exec_int_arith (op : String) (a b : ℤ) (v : Value)
    (hop : op ∈ (["operator.add", "operator.sub", "operator.mul", "operator.mod"] : List String))
    (hexec : executeOperation op [.intV a, .intV b] = some v) :
    ∃ n : ℤ, v = .intV n ∧ pyApplyOp op [.intV a, .intV b] = some (.intV n) := by
  simp only [List.mem_cons, List.not_mem_nil, or_false] at hop
  rcases hop with rfl | rfl | rfl | rfl
  · exact ⟨a + b, (Option.some.inj (show some (Value.intV (a + b)) = some v from hexec)).symm, rfl⟩
  · exact ⟨a - b, (Option.some.inj (show some (Value.intV (a - b)) = some v from hexec)).symm, rfl⟩
  · exact ⟨a * b, (Option.some.inj (show some (Value.intV (a * b)) = some v from hexec)).symm, rfl⟩
  · by_cases hb : b = 0
    · subst hb
      cases (show (none : Option Value) = some v from hexec)
    · have h0 : numIsZero (Value.intV b) = false := beq_eq_false_iff_ne.mpr hb
      have hpy : pyApplyOp "operator.mod" [Value.intV a, Value.intV b] =
          some (Value.intV (Int.fmod a b)) := by
        show (if numIsZero (Value.intV b) = true then none
              else some (Value.intV (Int.fmod a b))) = some (Value.intV (Int.fmod a b))
        rw [h0]
        simp
      have hres : executeOperation "operator.mod" [Value.intV a, Value.intV b] =
          some (Value.intV (Int.fmod a b)) := by
        show (match pyApplyOp "operator.mod" [Value.intV a, Value.intV b] with
              | none => none
              | some res =>
                match res with
                | .boolV bb => some (Value.intV (if bb then 1 else 0))
                | .intV n => some (Value.intV n)
                | .floatV q => some (Value.intV (ratTrunc q))) =
            some (Value.intV (Int.fmod a b))
        rw [hpy]
      rw [hexec] at hres
      exact ⟨Int.fmod a b, Option.some.inj hres, hpy⟩

/-- Running the generated code over a folded arithmetic span is the same as
running it over the literal result, from any stack: the operands push int
tags, the promotion yields int, and the runtime operator computes the same
integer the fold computed. -/
theorem runToks_arith_span (fm : List String) (tabs : Tabs) (sym : String) (op : String)
    (a b n : ℤ) (post : List Tok)
    (hop : op ∈ (["operator.add", "operator.sub", "operator.mul", "operator.mod"] : List String))
    (hpy : pyApplyOp op [.intV a, .intV b] = some (.intV n)) :
    ∀ st, runToksAux fm tabs sym st (.num (.intV a) :: .num (.intV b) :: .s op :: post) =
      runToksAux fm tabs sym st (.num (.intV n) :: post) := by
  intro st
  simp only [List.mem_cons, List.not_mem_nil, or_false] at hop
  rcases hop with rfl | rfl | rfl | rfl
  · obtain rfl : a + b = n :=
      Value.intV.inj (Option.some.inj (show some (Value.intV (a + b)) = some (Value.intV n) from hpy))
    rfl
  · obtain rfl : a - b = n :=
      Value.intV.inj (Option.some.inj (show some (Value.intV (a - b)) = some (Value.intV n) from hpy))
    rfl
  · obtain rfl : a * b = n :=
      Value.intV.inj (Option.some.inj (show some (Value.intV (a * b)) = some (Value.intV n) from hpy))
    rfl
  · by_cases hb : b = 0
    · subst hb
      cases (show (none : Option Value) = some (Value.intV n) from hpy)
    · have h0 : numIsZero (Value.intV b) = false := beq_eq_false_iff_ne.mpr hb
      have hpy2 : pyApplyOp "operator.mod" [Value.intV a, Value.intV b] =
          some (Value.intV (Int.fmod a b)) := by
        show (if numIsZero (Value.intV b) = true then none
              else some (Value.intV (Int.fmod a b))) = some (Value.intV (Int.fmod a b))
        rw [h0]
        simp
      obtain rfl : Int.fmod a b = n := by
        rw [hpy] at hpy2
        exact (Value.intV.inj (Option.some.inj hpy2)).symm
      have hstep : runTokStep fm tabs sym (("int", Value.intV b) :: ("int", Value.intV a) :: st)
          (Tok.s "operator.mod") = .push (("int", Value.intV (Int.fmod a b)) :: st) := by
        show (match pyApplyOp "operator.mod" [Value.intV a, Value.intV b] with
              | some v2 => RunStepOut.push (("int", v2) :: st)
              | none => RunStepOut.err) =
            RunStepOut.push (("int", Value.intV (Int.fmod a b)) :: st)
        rw [hpy2]
      show (match runTokStep fm tabs sym (("int", Value.intV b) :: ("int", Value.intV a) :: st)
            (Tok.s "operator.mod") with
            | RunStepOut.push st2 => runToksAux fm tabs sym st2 post
            | RunStepOut.halt o => some o
            | RunStepOut.err => none) =
          runToksAux fm tabs sym st (Tok.num (Value.intV (Int.fmod a b)) :: post)
      rw [hstep]
      rfl

/-- Running the generated code over a folded unary-minus span equals running
it over the negated literal: the generated operator.mul(-1, x) computes -x. -/
theorem runToks_unary_span (fm : List String) (tabs : Tabs) (sym : String)
    (a : ℤ) (post : List Tok) (hfm : "unary -" ∉ fm) :
    ∀ st, runToksAux fm tabs sym st (.num (.intV a) :: .s "unary -" :: post) =
      runToksAux fm tabs sym st (.num (.intV (-a)) :: post) := by
  intro st
  have hstep : runTokStep fm tabs sym (("int", Value.intV a) :: st) (Tok.s "unary -") =
      .push (("int", Value.intV (-1 * a)) :: st) := by
    show (if "unary -" ∈ fm then RunStepOut.err
          else RunStepOut.push (("int", Value.intV (-1 * a)) :: st)) =
        RunStepOut.push (("int", Value.intV (-1 * a)) :: st)
    rw [if_neg hfm]
  rw [neg_one_mul] at hstep
  show (match runTokStep fm tabs sym (("int", Value.intV a) :: st) (Tok.s "unary -") with
        | RunStepOut.push st2 => runToksAux fm tabs sym st2 post
        | RunStepOut.halt o => some o
        | RunStepOut.err => none) =
      runToksAux fm tabs sym st (Tok.num (Value.intV (-a)) :: post)
  rw [hstep]
  rfl

/-- Inversion of a successful fold at one scan position over safe tokens:
the reversed scanned prefix splits into the reversed operand span and the
untouched prefix, the folded line is reassembled around the folded literal,
and the consumed span satisfies spanOK. -/
theorem foldHere_inv (fm : List String) (revPre : List Tok) (str : String) (rest l2 : List Tok)
    (hsafe : exprTokSafe fm (.s str) = true)
    (hpre : ∀ t ∈ revPre, exprTokSafe fm t = true)
    (h : foldHere revPre str rest = some (.changed l2)) :
    ∃ spanRev pre2 v, revPre = spanRev ++ pre2 ∧
      l2 = pre2.reverse ++ Tok.num v :: rest ∧
      spanOK fm (spanRev.reverse ++ [Tok.s str]) v := by
  have hsafe3 : (if (alookup str OPERATOR_FUNCTIONS).isSome then
      decide (str ∈ (["operator.add", "operator.sub", "operator.mul", "operator.mod"] : List String))
    else if str = "unary -" then decide (str ∉ fm)
    else true) = true := hsafe
  simp only [foldHere] at h
  by_cases h1 : (alookup str OPERATOR_FUNCTIONS).isSome = true
  · rw [if_pos h1] at h
    rw [if_pos h1] at hsafe3
    have hwl : str ∈ (["operator.add", "operator.sub", "operator.mul", "operator.mod"] :
        List String) := of_decide_eq_true hsafe3
    have har : opArity str = 2 := by
      have hwl2 := hwl
      simp only [List.mem_cons, List.not_mem_nil, or_false] at hwl2
      rcases hwl2 with rfl | rfl | rfl | rfl <;> rfl
    rw [har] at h
    by_cases h2 : (decide (2 ≤ revPre.length) && (revPre.take 2).all Tok.isNum) = true
    · rw [if_pos h2] at h
      obtain ⟨hlen, hall⟩ := Bool.and_eq_true_iff.mp h2
      have hlen2 : 2 ≤ revPre.length := of_decide_eq_true hlen
      cases revPre with
      | nil => simp at hlen2
      | cons t1 r1 =>
        cases r1 with
        | nil => simp at hlen2
        | cons t2 pre2 =>
          cases t1 with
          | s s1 =>
            exact absurd (show (false && (t2.isNum && true)) = true from hall) (by simp)
          | num v1 =>
            cases t2 with
            | s s2 =>
              exact absurd (show (true && (false && true)) = true from hall) (by simp)
            | num v2 =>
              have hs1 : exprTokSafe fm (.num v1) = true := hpre _ (List.mem_cons_self _ _)
              have hs2 : exprTokSafe fm (.num v2) = true :=
                hpre _ (List.mem_cons_of_mem _ (List.mem_cons_self _ _))
              cases v1 with
              | floatV q => exact absurd (show false = true from hs1) Bool.false_ne_true
              | boolV bb => exact absurd (show false = true from hs1) Bool.false_ne_true
              | intV b =>
                cases v2 with
                | floatV q => exact absurd (show false = true from hs2) Bool.false_ne_true
                | boolV bb => exact absurd (show false = true from hs2) Bool.false_ne_true
                | intV a =>
                  have h3 : (match executeOperation str [Value.intV a, Value.intV b] with
                             | some v => some (StepRes.changed (pre2.reverse ++ Tok.num v :: rest))
                             | none => some StepRes.evalErr) = some (StepRes.changed l2) := h
                  cases hexec : executeOperation str [Value.intV a, Value.intV b] with
                  | none =>
                    rw [hexec] at h3
                    exact StepRes.noConfusion (Option.some.inj h3)
                  | some v =>
                    rw [hexec] at h3
                    have h4 : some (StepRes.changed (pre2.reverse ++ Tok.num v :: rest)) =
                        some (StepRes.changed l2) := h3
                    have hl2 : l2 = pre2.reverse ++ Tok.num v :: rest :=
                      (StepRes.changed.inj (Option.some.inj h4)).symm
                    obtain ⟨n, rfl, hpyn⟩ := exec_int_arith str a b v hwl hexec
                    exact ⟨[Tok.num (Value.intV b), Tok.num (Value.intV a)], pre2,
                      Value.intV n, rfl, hl2,
                      Or.inl ⟨a, b, str, rfl, hwl, n, rfl, hpyn⟩⟩
    · rw [if_neg h2] at h
      exact Option.noConfusion h
  · rw [if_neg h1] at h
    by_cases hu : str = "unary -"
    · rw [if_pos hu] at h
      subst hu
      rw [if_neg h1, if_pos rfl] at hsafe3
      have hfm : "unary -" ∉ fm := of_decide_eq_true hsafe3
      cases revPre with
      | nil => exact Option.noConfusion h
      | cons t1 pre2 =>
        cases t1 with
        | s s1 => exact Option.noConfusion h
        | num v1 =>
          have hs1 : exprTokSafe fm (.num v1) = true := hpre _ (List.mem_cons_self _ _)
          cases v1 with
          | floatV q => exact absurd (show false = true from hs1) Bool.false_ne_true
          | boolV bb => exact absurd (show false = true from hs1) Bool.false_ne_true
          | intV a =>
            have h4 : some (StepRes.changed (pre2.reverse ++ Tok.num (Value.intV (-a)) :: rest)) =
                some (StepRes.changed l2) := h
            exact ⟨[Tok.num (Value.intV a)], pre2, Value.intV (-a), rfl,
              (StepRes.changed.inj (Option.some.inj h4)).symm,
              Or.inr ⟨a, rfl, rfl, hfm⟩⟩
    · rw [if_neg hu] at h
      exact Option.noConfusion h

/-- A changed scan over safe tokens is exactly the replacement of one spanOK
span by its folded literal, at some position of the line. -/
theorem foldScan_changed_safe (fm : List String) :
    ∀ (rest revPre l2 : List Tok),
      (∀ t ∈ revPre, exprTokSafe fm t = true) →
      (∀ t ∈ rest, exprTokSafe fm t = true) →
      foldScan revPre rest = .changed l2 →
      ∃ A span v B, revPre.reverse ++ rest = A ++ (span ++ B) ∧
        l2 = A ++ Tok.num v :: B ∧ spanOK fm span v := by
  intro rest
  induction rest with
  | nil =>
    intro revPre l2 _ _ h
    exact StepRes.noConfusion h
  | cons t rest2 ih =>
    intro revPre l2 hpre hrest h
    cases t with
    | num v =>
      have h2 : foldScan (Tok.num v :: revPre) rest2 = .changed l2 := h
      have hpre2 : ∀ t2 ∈ Tok.num v :: revPre, exprTokSafe fm t2 = true := by
        intro t2 ht2
        rcases List.mem_cons.mp ht2 with rfl | hm
        · exact hrest _ (List.mem_cons_self _ _)
        · exact hpre _ hm
      have hrest2 : ∀ t2 ∈ rest2, exprTokSafe fm t2 = true :=
        fun t2 ht2 => hrest _ (List.mem_cons_of_mem _ ht2)
      obtain ⟨A, span, w, B, he, hl2, hok⟩ := ih (Tok.num v :: revPre) l2 hpre2 hrest2 h2
      refine ⟨A, span, w, B, ?_, hl2, hok⟩
      rw [← he]
      simp [List.reverse_cons, List.append_assoc]
    | s str =>
      have hm : foldScan revPre (Tok.s str :: rest2) =
          (match foldHere revPre str rest2 with
           | some res => res
           | none => foldScan (Tok.s str :: revPre) rest2) := rfl
      cases hfh : foldHere revPre str rest2 with
      | some res =>
        rw [hm, hfh] at h
        have h2 : res = .changed l2 := h
        rw [h2] at hfh
        obtain ⟨spanRev, pre2, w, hsplit, hl2, hok⟩ :=
          foldHere_inv fm revPre str rest2 l2 (hrest _ (List.mem_cons_self _ _)) hpre hfh
        refine ⟨pre2.reverse, spanRev.reverse ++ [Tok.s str], w, rest2, ?_, hl2, hok⟩
        rw [hsplit]
        simp [List.reverse_append, List.append_assoc]
      | none =>
        rw [hm, hfh] at h
        have h2 : foldScan (Tok.s str :: revPre) rest2 = .changed l2 := h
        have hpre2 : ∀ t2 ∈ Tok.s str :: revPre, exprTokSafe fm t2 = true := by
          intro t2 ht2
          rcases List.mem_cons.mp ht2 with rfl | hm2
          · exact hrest _ (List.mem_cons_self _ _)
          · exact hpre _ hm2
        have hrest2 : ∀ t2 ∈ rest2, exprTokSafe fm t2 = true :=
          fun t2 ht2 => hrest _ (List.mem_cons_of_mem _ ht2)
        obtain ⟨A, span, w, B, he, hl2, hok⟩ := ih (Tok.s str :: revPre) l2 hpre2 hrest2 h2
        refine ⟨A, span, w, B, ?_, hl2, hok⟩
        rw [← he]
        simp [List.reverse_cons, List.append_assoc]

/-- A line not ending in the assignment marker is run whole, with symbol
None. -/
theorem runLine_not_assign (fm : List String) (tabs : Tabs) (L : List Tok)
    (h : ∀ e, L.getLast? = some e → e ≠ Tok.s "=") :
    runLine fm tabs L = (runToksAux fm tabs "None" [] L).map (outcomeResult tabs) := by
  simp only [runLine]
  split
  next heq => exact absurd rfl (h _ heq)
  next => rfl

/-- A line ending in the assignment marker with a string head is run from
position 1 with the head (underscore stripped) as assignment target. -/
theorem runLine_assign (fm : List String) (tabs : Tabs) (L : List Tok) (s0 : String)
    (hlast : L.getLast? = some (Tok.s "=")) (hhead : L.head? = some (Tok.s s0)) :
    runLine fm tabs L =
      (runToksAux fm tabs (s0.drop 1) [] (L.drop 1)).map (outcomeResult tabs) := by
  simp only [runLine]
  rw [hlast, hhead]
  rfl

/-- A line ending in the assignment marker whose head is a literal produces
no run result (the generated statement is ill-formed). -/
theorem runLine_assign_numhead (fm : List String) (tabs : Tabs) (L : List Tok) (w : Value)
    (hlast : L.getLast? = some (Tok.s "=")) (hhead : L.head? = some (Tok.num w)) :
    runLine fm tabs L = none := by
  simp only [runLine]
  rw [hlast, hhead]
  rfl

/-- Replacing a span by a literal with the same runtime effect, anywhere in
a line, does not change the observable run of the generated code: the line
shape dispatch (assignment versus expression) is unaffected because the
span neither starts the line with a string nor ends it with the assignment
marker. -/
theorem runLine_span_congr (fm : List String) (tabs : Tabs) (A B S : List Tok)
    (v w : Value) (Stail : List Tok) (hS : S = Tok.num w :: Stail)
    (op : String) (hop : op ≠ "=") (hSlast : S.getLast? = some (Tok.s op))
    (hsem : ∀ sym st, runToksAux fm tabs sym st (S ++ B) =
      runToksAux fm tabs sym st (Tok.num v :: B)) :
    runLine fm tabs (A ++ (Tok.num v :: B)) = runLine fm tabs (A ++ (S ++ B)) := by
  have hSne : S ≠ [] := by rw [hS]; exact List.cons_ne_nil _ _
  rcases List.eq_nil_or_concat B with rfl | ⟨B0, e, hB⟩
  · have hl1 : (A ++ (S ++ [])).getLast? = some (Tok.s op) := by
      rw [List.append_nil, List.getLast?_append_of_ne_nil A hSne, hSlast]
    have hl2 : (A ++ (Tok.num v :: ([] : List Tok))).getLast? = some (Tok.num v) :=
      List.getLast?_concat A
    have hna1 : ∀ e2, (A ++ (S ++ [])).getLast? = some e2 → e2 ≠ Tok.s "=" := by
      intro e2 he2
      rw [hl1] at he2
      injection he2 with he3
      subst he3
      intro hc
      exact hop (Tok.s.inj hc)
    have hna2 : ∀ e2, (A ++ (Tok.num v :: ([] : List Tok))).getLast? = some e2 →
        e2 ≠ Tok.s "=" := by
      intro e2 he2
      rw [hl2] at he2
      injection he2 with he3
      subst he3
      exact fun hc => Tok.noConfusion hc
    rw [runLine_not_assign fm tabs _ hna2, runLine_not_assign fm tabs _ hna1]
    exact congrArg (Option.map (outcomeResult tabs))
      ((runToksAux_congr_suffix fm tabs "None" _ _ (hsem "None") A []).symm)
  · rw [List.concat_eq_append] at hB
    subst hB
    have hlast1 : (A ++ (S ++ (B0 ++ [e]))).getLast? = some e := by
      rw [show A ++ (S ++ (B0 ++ [e])) = (A ++ (S ++ B0)) ++ [e] from by
        simp [List.append_assoc]]
      exact List.getLast?_concat _
    have hlast2 : (A ++ (Tok.num v :: (B0 ++ [e]))).getLast? = some e := by
      rw [show A ++ (Tok.num v :: (B0 ++ [e])) = (A ++ (Tok.num v :: B0)) ++ [e] from by
        simp]
      exact List.getLast?_concat _
    by_cases he : e = Tok.s "="
    · subst he
      cases A with
      | nil =>
        have hh1 : (([] : List Tok) ++ (S ++ (B0 ++ [Tok.s "="]))).head? =
            some (Tok.num w) := by rw [hS]; rfl
        have hh2 : (([] : List Tok) ++ (Tok.num v :: (B0 ++ [Tok.s "="]))).head? =
            some (Tok.num v) := rfl
        rw [runLine_assign_numhead fm tabs _ v hlast2 hh2,
            runLine_assign_numhead fm tabs _ w hlast1 hh1]
      | cons a0 A1 =>
        cases a0 with
        | num w0 =>
          have hh1 : ((Tok.num w0 :: A1) ++ (S ++ (B0 ++ [Tok.s "="]))).head? =
              some (Tok.num w0) := rfl
          have hh2 : ((Tok.num w0 :: A1) ++ (Tok.num v :: (B0 ++ [Tok.s "="]))).head? =
              some (Tok.num w0) := rfl
          rw [runLine_assign_numhead fm tabs _ w0 hlast2 hh2,
              runLine_assign_numhead fm tabs _ w0 hlast1 hh1]
        | s s0 =>
          have hh1 : ((Tok.s s0 :: A1) ++ (S ++ (B0 ++ [Tok.s "="]))).head? =
              some (Tok.s s0) := rfl
          have hh2 : ((Tok.s s0 :: A1) ++ (Tok.num v :: (B0 ++ [Tok.s "="]))).head? =
              some (Tok.s s0) := rfl
          rw [runLine_assign fm tabs _ s0 hlast2 hh2, runLine_assign fm tabs _ s0 hlast1 hh1]
          have hd1 : ((Tok.s s0 :: A1) ++ (S ++ (B0 ++ [Tok.s "="]))).drop 1 =
              A1 ++ (S ++ (B0 ++ [Tok.s "="])) := rfl
          have hd2 : ((Tok.s s0 :: A1) ++ (Tok.num v :: (B0 ++ [Tok.s "="]))).drop 1 =
              A1 ++ (Tok.num v :: (B0 ++ [Tok.s "="])) := rfl
          rw [hd1, hd2]
          exact congrArg (Option.map (outcomeResult tabs))
            ((runToksAux_congr_suffix fm tabs (s0.drop 1) _ _ (hsem (s0.drop 1)) A1 []).symm)
    · have hna1 : ∀ e2, (A ++ (S ++ (B0 ++ [e]))).getLast? = some e2 → e2 ≠ Tok.s "=" := by
        intro e2 he2
        rw [hlast1] at he2
        injection he2 with he3
        subst he3
        exact he
      have hna2 : ∀ e2, (A ++ (Tok.num v :: (B0 ++ [e]))).getLast? = some e2 →
          e2 ≠ Tok.s "=" := by
        intro e2 he2
        rw [hlast2] at he2
        injection he2 with he3
        subst he3
        exact he
      rw [runLine_not_assign fm tabs _ hna2, runLine_not_assign fm tabs _ hna1]
      exact congrArg (Option.map (outcomeResult tabs))
        ((runToksAux_congr_suffix fm tabs "None" _ _ (hsem "None") A []).symm)

/-- One fold pass over a safe line keeps it safe and preserves the
observable run of the generated code. -/
theorem step_runLine (fm : List String) (L L2 : List Tok)
    (hsafe : ∀ t ∈ L, exprTokSafe fm t = true)
    (h : stepLine L = .changed L2) :
    (∀ t ∈ L2, exprTokSafe fm t = true) ∧
    ∀ tabs, runLine fm tabs L2 = runLine fm tabs L := by
  obtain ⟨A, span, v, B, hL, hl2, hok⟩ :=
    foldScan_changed_safe fm L [] L2 (fun t ht => absurd ht (List.not_mem_nil t)) hsafe h
  have hL3 : L = A ++ (span ++ B) := hL
  subst hL3
  subst hl2
  constructor
  · intro t ht
    rcases List.mem_append.mp ht with hA | hcons
    · exact hsafe t (List.mem_append.mpr (Or.inl hA))
    · rcases List.mem_cons.mp hcons with rfl | hB
      · rcases hok with ⟨a, b, op2, hsp, hop2, n, rfl, hpy⟩ | ⟨a, hsp, rfl, hfm⟩
        · rfl
        · rfl
      · exact hsafe t (List.mem_append.mpr (Or.inr (List.mem_append.mpr (Or.inr hB))))
  · intro tabs
    rcases hok with ⟨a, b, op2, rfl, hop2, n, rfl, hpy⟩ | ⟨a, rfl, rfl, hfm⟩
    · have hopne : op2 ≠ "=" := by
        simp only [List.mem_cons, List.not_mem_nil, or_false] at hop2
        rcases hop2 with rfl | rfl | rfl | rfl <;> decide
      exact runLine_span_congr fm tabs A B _ (Value.intV n) (Value.intV a)
        [Tok.num (Value.intV b), Tok.s op2] rfl op2 hopne rfl
        (fun sym st => runToks_arith_span fm tabs sym op2 a b n B hop2 hpy st)
    · exact runLine_span_congr fm tabs A B _ (Value.intV (-a)) (Value.intV a)
        [Tok.s "unary -"] rfl "unary -" (by decide) rfl
        (fun sym st => runToks_unary_span fm tabs sym a B hfm st)

/-- Iterated folding of a safe line preserves the observable run of the
generated code, for any fuel. -/
theorem reduce_preserved (fm : List String) :
    ∀ (fuel : Nat) (L L2 : List Tok),
      (∀ t ∈ L, exprTokSafe fm t = true) →
      reduceAux fuel L = .ok L2 →
      ∀ tabs, runLine fm tabs L2 = runLine fm tabs L := by
  intro fuel
  induction fuel with
  | zero => intro L L2 _ h; exact FoldRes.noConfusion h
  | succ fuel ih =>
    intro L L2 hsafe h
    have h2 : (match stepLine L with
               | StepRes.noChange => FoldRes.ok L
               | StepRes.changed l2 => reduceAux fuel l2
               | StepRes.evalErr => FoldRes.evalErr) = .ok L2 := h
    cases hstep : stepLine L with
    | noChange =>
      rw [hstep] at h2
      have h3 : FoldRes.ok L = FoldRes.ok L2 := h2
      obtain rfl : L = L2 := FoldRes.ok.inj h3
      exact fun tabs => rfl
    | changed l2 =>
      rw [hstep] at h2
      have h3 : reduceAux fuel l2 = .ok L2 := h2
      obtain ⟨hsafe2, hrun⟩ := step_runLine fm L l2 hsafe hstep
      exact fun tabs => (ih l2 L2 hsafe2 h3 tabs).trans (hrun tabs)
    | evalErr =>
      rw [hstep] at h2
      exact FoldRes.noConfusion h2

/-- C2 (counterexample to the claimed statement): constant folding does NOT
preserve semantics on every postfix line.  For x = 3 / 2, folding evaluates
executeOperation, whose result-type cast int(...) truncates the true-division
result 1.5 to the int 1 (both operands are ints, so result_type is int); the
unfolded generated code calls operator.truediv at runtime and assigns the
float 3/2.  The two runs write different values for x. -/
theorem c2_fold_changes_semantics :
    reduceLine [Tok.s "_x", Tok.num (Value.intV 3), Tok.num (Value.intV 2),
      Tok.s "operator.truediv", Tok.s "="] =
      .ok [Tok.s "_x", Tok.num (Value.intV 1), Tok.s "="] ∧
    (runLine [] emptyTabs [Tok.s "_x", Tok.num (Value.intV 3), Tok.num (Value.intV 2),
      Tok.s "operator.truediv", Tok.s "="]).map (fun p => get_symbol p.1 "x") =
      some (Value.floatV (mkF 3 2)) ∧
    (runLine [] emptyTabs [Tok.s "_x", Tok.num (Value.intV 1), Tok.s "="]).map
      (fun p => get_symbol p.1 "x") = some (Value.intV 1) ∧
    Value.floatV (mkF 3 2) ≠ Value.intV 1 :=
  ⟨rfl, rfl, rfl, by decide⟩

/-- C2 (amended): constant folding preserves the observable semantics of the
generated code on the exact-arithmetic fragment: for every postfix line
whose literals are ints and whose operator tokens are drawn from
operator.add, operator.sub, operator.mul, operator.mod and unary minus
(with "unary -" not registered as a user function name), if reduceLine
completes then running the generated code of the folded line produces the
same symbol-table writes and the same values as running the generated code
of the original line, against any symbol tables.  Folding of
operator.truediv (and of comparisons on spuriously numeric-looking stacks)
is excluded: there the int(...) result-type cast of executeOperation
changes the assigned value, as the counterexample shows. -/
theorem c2_fold_preserves_int_arith (fm : List String) (L L2 : List Tok)
    (hsafe : lineSafe fm L = true) (hred : reduceLine L = .ok L2) (tabs : Tabs) :
    runLine fm tabs L2 = runLine fm tabs L := by
  have hsafe2 : ∀ t ∈ L, exprTokSafe fm t = true := by
    have h2 : L.all (exprTokSafe fm) = true := hsafe
    exact fun t ht => List.all_eq_true.mp h2 t ht
  exact reduce_preserved fm (L.length + 1) L L2 hsafe2 hred tabs

/-- Witness for C2: the assignment line x = 2 + 3 * 4 folds to x = 14 and
both versions run identically. -/
theorem c2_fold_preserves_int_arith_witness :
    lineSafe [] [Tok.s "_x", Tok.num (Value.intV 2), Tok.num (Value.intV 3),
      Tok.num (Value.intV 4), Tok.s "operator.mul", Tok.s "operator.add", Tok.s "="] = true ∧
    reduceLine [Tok.s "_x", Tok.num (Value.intV 2), Tok.num (Value.intV 3),
      Tok.num (Value.intV 4), Tok.s "operator.mul", Tok.s "operator.add", Tok.s "="] =
      .ok [Tok.s "_x", Tok.num (Value.intV 14), Tok.s "="] ∧
    runLine [] emptyTabs [Tok.s "_x", Tok.num (Value.intV 14), Tok.s "="] =
      runLine [] emptyTabs [Tok.s "_x", Tok.num (Value.intV 2), Tok.num (Value.intV 3),
        Tok.num (Value.intV 4), Tok.s "operator.mul", Tok.s "operator.add", Tok.s "="] :=
  ⟨rfl, rfl,
    c2_fold_preserves_int_arith [] [Tok.s "_x", Tok.num (Value.intV 2),
      Tok.num (Value.intV 3), Tok.num (Value.intV 4), Tok.s "operator.mul",
      Tok.s "operator.add", Tok.s "="]
      [Tok.s "_x", Tok.num (Value.intV 14), Tok.s "="] rfl rfl emptyTabs⟩

end PygameMaker
